import Mathlib

/-!
Verification of the audio-looper core (loop-point optimizer, crossfade
synthesizer, loop tiler, PCM encoder).

Modelling conventions for the JavaScript source:
* JavaScript numbers are idealized as exact reals; concrete sample data is
  rational.  A value that the source computes as `NaN` (division `0/0`,
  `Math.sqrt(NaN)`, reads of `undefined` array slots, arithmetic on `NaN`)
  is modelled as `none : Option ℝ`; ordinary finite values are `some x`.
  Comparisons against `NaN` are false in JavaScript, which the `js*`
  operations below reproduce.  The sentinel initial values `Infinity` /
  `-Infinity` of the search loops are modelled by starting the
  corresponding fold from `none` (no best candidate yet): a finite score
  always beats the sentinel, a `NaN` score never does.
* Sample indices and loop bounds are exact integers (`ℤ`), sample counts
  `ℕ`.  `Math.floor` is `Int.floor` on exact rationals.
* Reads of a `Float32Array` outside `[0, length)` yield `undefined` in
  JavaScript and poison subsequent arithmetic to `NaN`; the embedding
  returns `none` in exactly those cases.  Writes outside the array are
  silently dropped, as in JavaScript.
-/

namespace AudioLooper

/-- `Math.max(lo, Math.min(hi, v))` on exact integers (the source's `clamp`
applied to integer-valued quantities). -/
def clampZ (v lo hi : ℤ) : ℤ := max lo (min hi v)

/-- The source's `clamp` on exact rationals. -/
def clampQ (v lo hi : ℚ) : ℚ := max lo (min hi v)

/-- The `EPSILON` constant of the source (`1e-6`). -/
def EPSILON : ℚ := 1/1000000

/-- Addition on JS numbers (`NaN` propagates). -/
def jsAdd : Option ℝ → Option ℝ → Option ℝ
  | some a, some b => some (a + b)
  | _, _ => none

/-- Subtraction on JS numbers (`NaN` propagates). -/
def jsSub : Option ℝ → Option ℝ → Option ℝ
  | some a, some b => some (a - b)
  | _, _ => none

/-- Multiplication on JS numbers (`NaN` propagates). -/
def jsMul : Option ℝ → Option ℝ → Option ℝ
  | some a, some b => some (a * b)
  | _, _ => none

/-- Division on JS numbers.  `NaN` propagates; a zero divisor is modelled
as `NaN` (in the source every division either has a provably nonzero
divisor or is the `0/0` case). -/
noncomputable def jsDiv : Option ℝ → Option ℝ → Option ℝ
  | some a, some b => if b = 0 then none else some (a / b)
  | _, _ => none

/-- `Math.abs` on JS numbers. -/
def jsAbs : Option ℝ → Option ℝ
  | some a => some |a|
  | none => none

/-- `Math.max` on JS numbers (`NaN` in either argument gives `NaN`). -/
def jsMax : Option ℝ → Option ℝ → Option ℝ
  | some a, some b => some (max a b)
  | _, _ => none

/-- `Math.min` on JS numbers (`NaN` in either argument gives `NaN`). -/
def jsMin : Option ℝ → Option ℝ → Option ℝ
  | some a, some b => some (min a b)
  | _, _ => none

/-- The source's `clamp(value, min, max) = Math.max(min, Math.min(max, value))`
on JS numbers. -/
def jsClamp (v : Option ℝ) (lo hi : ℝ) : Option ℝ :=
  jsMax (some lo) (jsMin (some hi) v)

@[simp] theorem jsAdd_some (a b : ℝ) : jsAdd (some a) (some b) = some (a + b) := rfl
@[simp] theorem jsSub_some (a b : ℝ) : jsSub (some a) (some b) = some (a - b) := rfl
@[simp] theorem jsMul_some (a b : ℝ) : jsMul (some a) (some b) = some (a * b) := rfl
@[simp] theorem jsAbs_some (a : ℝ) : jsAbs (some a) = some |a| := rfl
@[simp] theorem jsMax_some (a b : ℝ) : jsMax (some a) (some b) = some (max a b) := rfl
@[simp] theorem jsMin_some (a b : ℝ) : jsMin (some a) (some b) = some (min a b) := rfl
@[simp] theorem jsAdd_none_left (b : Option ℝ) : jsAdd none b = none := rfl
@[simp] theorem jsSub_none_left (b : Option ℝ) : jsSub none b = none := rfl
@[simp] theorem jsMul_none_left (b : Option ℝ) : jsMul none b = none := rfl
@[simp] theorem jsMax_none_left (b : Option ℝ) : jsMax none b = none := rfl
@[simp] theorem jsMin_none_left (b : Option ℝ) : jsMin none b = none := rfl
@[simp] theorem jsAbs_none : jsAbs none = none := rfl
@[simp] theorem jsDiv_none_left (b : Option ℝ) : jsDiv none b = none := rfl

@[simp] theorem jsAdd_none_right (a : Option ℝ) : jsAdd a none = none := by
  cases a <;> rfl

@[simp] theorem jsSub_none_right (a : Option ℝ) : jsSub a none = none := by
  cases a <;> rfl

@[simp] theorem jsMul_none_right (a : Option ℝ) : jsMul a none = none := by
  cases a <;> rfl

@[simp] theorem jsMax_none_right (a : Option ℝ) : jsMax a none = none := by
  cases a <;> rfl

@[simp] theorem jsMin_none_right (a : Option ℝ) : jsMin a none = none := by
  cases a <;> rfl

@[simp] theorem jsDiv_none_right (a : Option ℝ) : jsDiv a none = none := by
  cases a <;> rfl

theorem jsDiv_some_of_ne (a b : ℝ) (hb : b ≠ 0) :
    jsDiv (some a) (some b) = some (a / b) := by
  simp [jsDiv, hb]

@[simp] theorem jsClamp_none (lo hi : ℝ) : jsClamp none lo hi = none := rfl

@[simp] theorem jsClamp_some (v lo hi : ℝ) :
    jsClamp (some v) lo hi = some (max lo (min hi v)) := rfl

/-- The integers `a, a+1, …, b` (empty when `b < a`); the index set of a
JavaScript loop `for (let i = a; i <= b; i++)`. -/
def intsFromTo (a b : ℤ) : List ℤ :=
  (List.range (b + 1 - a).toNat).map (fun k : ℕ => a + (k : ℤ))

theorem mem_intsFromTo {a b i : ℤ} :
    i ∈ intsFromTo a b ↔ a ≤ i ∧ i ≤ b := by
  unfold intsFromTo
  simp only [List.mem_map, List.mem_range]
  constructor
  · rintro ⟨k, hk, rfl⟩
    omega
  · rintro ⟨h1, h2⟩
    exact ⟨(i - a).toNat, by omega, by omega⟩

/-- The stepped candidate indices `a, a+step, a+2·step, …` below `b`; the
index set of a JavaScript loop `for (let i = a; i < b; i += step)`. -/
def steppedRange (a b step : ℤ) : List ℤ :=
  (List.range ((b - a + step - 1) / step).toNat).map (fun k : ℕ => a + step * (k : ℤ))

theorem steppedRange_count_iff {n s : ℤ} (hs : 0 < s) (k : ℤ) :
    k < (n + s - 1) / s ↔ s * k < n := by
  constructor
  · intro h
    have h' : (k + 1) * s ≤ n + s - 1 := (Int.le_ediv_iff_mul_le hs).mp (by omega)
    nlinarith
  · intro h
    have h' : (k + 1) * s ≤ n + s - 1 := by nlinarith
    have := (Int.le_ediv_iff_mul_le hs).mpr h'
    omega

theorem mem_steppedRange {a b step i : ℤ} (hstep : 0 < step) :
    i ∈ steppedRange a b step ↔ ∃ k : ℕ, i = a + step * k ∧ a + step * k < b := by
  unfold steppedRange
  simp only [List.mem_map, List.mem_range]
  constructor
  · rintro ⟨k, hk, rfl⟩
    refine ⟨k, rfl, ?_⟩
    have h1 : (k : ℤ) < (b - a + step - 1) / step := by omega
    have := (steppedRange_count_iff hstep (k : ℤ)).mp h1
    omega
  · rintro ⟨k, rfl, hlt⟩
    refine ⟨k, ?_, rfl⟩
    have h1 : step * (k : ℤ) < b - a := by omega
    have := (steppedRange_count_iff hstep (k : ℤ)).mpr h1
    omega

theorem mem_steppedRange_bounds {a b step i : ℤ} (hstep : 0 < step)
    (hi : i ∈ steppedRange a b step) : a ≤ i ∧ i < b := by
  rcases (mem_steppedRange hstep).mp hi with ⟨k, rfl, hlt⟩
  constructor
  · have : 0 ≤ step * (k : ℤ) := by positivity
    omega
  · exact hlt

theorem steppedRange_head_mem {a b : ℤ} (step : ℤ) (hstep : 0 < step) (hab : a < b) :
    a ∈ steppedRange a b step := by
  rw [mem_steppedRange hstep]
  exact ⟨0, by simp, by simpa using hab⟩

/-- A decoded multichannel sample buffer (the shape of a Web Audio
`AudioBuffer`): per-channel sample data, a shared length and sample rate. -/
structure AudioBuffer where
  numberOfChannels : ℕ
  length : ℕ
  sampleRate : ℚ
  channelData : ℕ → ℤ → ℚ

/-- User-supplied coarse loop selection, in seconds. -/
structure LoopPoints where
  start : ℚ
  «end» : ℚ

/-- The record produced by `optimizeLoopPoints`. -/
structure OptimizedLoopPoints where
  start : ℚ
  «end» : ℚ
  startSample : ℤ
  endSample : ℤ
  crossfadeDuration : Option ℝ

/-- A JS read `audioData[i]` of a `Float32Array` of length `L`: `undefined`
(poisoning arithmetic to `NaN`, modelled `none`) outside `[0, L)`. -/
def jsIndex (d : ℤ → ℚ) (L i : ℤ) : Option ℝ :=
  if 0 ≤ i ∧ i < L then some ((d i : ℚ) : ℝ) else none

/-- The sum `Σ data[i]²` over `s ≤ i < e` (the accumulation loop of
`calculateRMS`). -/
def rmsSumSq (d : ℤ → ℚ) (s e : ℤ) : ℚ :=
  ((intsFromTo s (e - 1)).map (fun i => d i * d i)).sum

/-- `calculateRMS(audioData, startSample, windowSize)` from
`audioProcessing.ts`: window end clamped to the buffer length, then
`sqrt(sum / (end - startSample))`.  The denominator is NOT guarded: an
empty clamped window gives `0/0 = NaN` (`none`); a window starting beyond
the buffer gives `sqrt(0 / negative) = -0`; a negative `startSample` reads
`undefined` slots and yields `NaN`. -/
noncomputable def calculateRMS (d : ℤ → ℚ) (L s w : ℤ) : Option ℝ :=
  if min (s + w) L - s = 0 then none
  else if min (s + w) L - s < 0 then some 0
  else if s < 0 then none
  else some (Real.sqrt ((rmsSumSq d s (min (s + w) L) : ℝ) / ((min (s + w) L - s : ℤ) : ℝ)))

theorem calculateRMS_some_of (d : ℤ → ℚ) {L s w : ℤ} (hs : 0 ≤ s)
    (hw : 1 ≤ min (s + w) L - s) :
    ∃ x, calculateRMS d L s w = some x ∧ 0 ≤ x := by
  refine ⟨Real.sqrt ((rmsSumSq d s (min (s + w) L) : ℝ) / ((min (s + w) L - s : ℤ) : ℝ)),
    ?_, Real.sqrt_nonneg _⟩
  unfold calculateRMS
  have h1 : ¬ (min (s + w) L - s = 0) := by omega
  have h2 : ¬ (min (s + w) L - s < 0) := by omega
  have h3 : ¬ (s < 0) := by omega
  simp only [h1, h2, h3, if_false]

theorem calculateRMS_none_iff (d : ℤ → ℚ) (L s w : ℤ) :
    calculateRMS d L s w = none ↔
      (min (s + w) L - s = 0 ∨ (0 < min (s + w) L - s ∧ s < 0)) := by
  unfold calculateRMS
  split_ifs with h1 h2 h3
  · exact iff_of_true rfl (Or.inl h1)
  · exact iff_of_false (by simp) (fun h => by rcases h with h | ⟨hpos, _⟩ <;> omega)
  · exact iff_of_true rfl (Or.inr ⟨by omega, h3⟩)
  · exact iff_of_false (by simp) (fun h => by rcases h with h | ⟨_, hneg⟩ <;> omega)

/-- The sum `Σ |data[i+1] - data[i]|` over `s ≤ i < e` (the loop of
`averageAbsoluteDerivative`). -/
def aadSum (d : ℤ → ℚ) (s e : ℤ) : ℚ :=
  ((intsFromTo s (e - 1)).map (fun i => |d (i + 1) - d i|)).sum

/-- `averageAbsoluteDerivative(audioData, startSample, windowSize)` from
`audioProcessing.ts`: mean of `|data[i+1] - data[i]|` over the window
clamped to `length - 1`, the denominator floored at 1.  A negative start
with a nonempty window reads `undefined` slots (`NaN`, modelled `none`). -/
def averageAbsoluteDerivative (d : ℤ → ℚ) (L s w : ℤ) : Option ℚ :=
  let e := min (s + w) (L - 1)
  if s < 0 ∧ s < e then none
  else some (aadSum d s e / ((max 1 (e - s) : ℤ) : ℚ))

/-- `crossCorrelation(audioData, start1, start2, windowSize)` from
`audioProcessing.ts`: `Σ a·b / sqrt(Σa² · Σb²)` over paired windows, the
loop stopping at the buffer end.  An empty effective window or a zero norm
product is the JS `0/0 = NaN` case (`none`); a negative start reads
`undefined` slots (`NaN`). -/
noncomputable def crossCorrelation (d : ℤ → ℚ) (L s1 s2 w : ℤ) : Option ℝ :=
  let n := min w (min (L - s1) (L - s2))
  if n ≤ 0 then none
  else if s1 < 0 ∨ s2 < 0 then none
  else
    let corr := ((intsFromTo 0 (n - 1)).map (fun i => d (s1 + i) * d (s2 + i))).sum
    let norm1 := ((intsFromTo 0 (n - 1)).map (fun i => d (s1 + i) * d (s1 + i))).sum
    let norm2 := ((intsFromTo 0 (n - 1)).map (fun i => d (s2 + i) * d (s2 + i))).sum
    if norm1 * norm2 = 0 then none
    else some ((corr : ℝ) / Real.sqrt ((norm1 : ℝ) * (norm2 : ℝ)))

/-- The sign-change test of `findNearestZeroCrossing`:
`(current ≤ 0 && next ≥ 0) || (current ≥ 0 && next ≤ 0)`. -/
def isCross (d : ℤ → ℚ) (i : ℤ) : Bool :=
  decide ((d i ≤ 0 ∧ 0 ≤ d (i + 1)) ∨ (0 ≤ d i ∧ d (i + 1) ≤ 0))

-- The best-candidate selection loop shared by the three search routines:
-- fold over the candidate list, replacing the current best when the
-- candidate's score is a real number that compares favourably.  The initial
-- state `none` models the `Infinity` / `-Infinity` sentinel: any real score
-- beats it, a `NaN` score never replaces anything (JS comparisons with `NaN`
-- are false).
open Classical in
noncomputable def scanBest (score : ℤ → Option ℝ) (better : ℝ → ℝ → Prop) :
    List ℤ → Option (ℤ × ℝ) → Option (ℤ × ℝ)
  | [], acc => acc
  | i :: rest, acc =>
    scanBest score better rest
      (match score i, acc with
       | some v, none => some (i, v)
       | some v, some (bi, bv) => if better v bv then some (i, v) else some (bi, bv)
       | none, _ => acc)

theorem scanBest_mem (score : ℤ → Option ℝ) (better : ℝ → ℝ → Prop) :
    ∀ (l : List ℤ) (acc : Option (ℤ × ℝ)),
      scanBest score better l acc = acc ∨
        ∃ i ∈ l, ∃ v, scanBest score better l acc = some (i, v) ∧ score i = some v := by
  intro l
  induction l with
  | nil => intro acc; left; rfl
  | cons i rest ih =>
    intro acc
    rcases hsc : score i with _ | v
    · rcases ih acc with h | ⟨j, hj, v, hv, hsj⟩
      · left
        simpa [scanBest, hsc] using h
      · right
        exact ⟨j, List.mem_cons_of_mem _ hj, v, by simpa [scanBest, hsc] using hv, hsj⟩
    · rcases acc with _ | ⟨bi, bv⟩
      · rcases ih (some (i, v)) with h | ⟨j, hj, v', hv, hsj⟩
        · right
          exact ⟨i, List.mem_cons_self _ _, v, by simpa [scanBest, hsc] using h, hsc⟩
        · right
          exact ⟨j, List.mem_cons_of_mem _ hj, v', by simpa [scanBest, hsc] using hv, hsj⟩
      · by_cases hb : better v bv
        · rcases ih (some (i, v)) with h | ⟨j, hj, v', hv, hsj⟩
          · right
            exact ⟨i, List.mem_cons_self _ _, v, by simpa [scanBest, hsc, hb] using h, hsc⟩
          · right
            exact ⟨j, List.mem_cons_of_mem _ hj, v', by simpa [scanBest, hsc, hb] using hv, hsj⟩
        · rcases ih (some (bi, bv)) with h | ⟨j, hj, v', hv, hsj⟩
          · left
            simpa [scanBest, hsc, hb] using h
          · right
            exact ⟨j, List.mem_cons_of_mem _ hj, v', by simpa [scanBest, hsc, hb] using hv, hsj⟩

theorem scanBest_isSome_of_acc (score : ℤ → Option ℝ) (better : ℝ → ℝ → Prop) :
    ∀ (l : List ℤ) (p : ℤ × ℝ), scanBest score better l (some p) ≠ none := by
  intro l
  induction l with
  | nil => intro p h; simpa [scanBest] using h
  | cons i rest ih =>
    intro p
    rcases hsc : score i with _ | v
    · simpa [scanBest, hsc] using ih p
    · rcases p with ⟨bi, bv⟩
      by_cases hb : better v bv
      · simpa [scanBest, hsc, hb] using ih (i, v)
      · simpa [scanBest, hsc, hb] using ih (bi, bv)

theorem scanBest_ne_none (score : ℤ → Option ℝ) (better : ℝ → ℝ → Prop) :
    ∀ (l : List ℤ) (acc : Option (ℤ × ℝ)),
      (∃ i ∈ l, score i ≠ none) → scanBest score better l acc ≠ none := by
  intro l
  induction l with
  | nil => rintro acc ⟨i, hi, _⟩; exact absurd hi (List.not_mem_nil i)
  | cons i rest ih =>
    rintro acc ⟨j, hj, hsj⟩
    rcases hsc : score i with _ | v
    · have hjr : j ∈ rest := by
        rcases List.mem_cons.mp hj with rfl | h
        · exact absurd hsc hsj
        · exact h
      simpa [scanBest, hsc] using ih acc ⟨j, hjr, hsj⟩
    · rcases acc with _ | ⟨bi, bv⟩
      · simpa [scanBest, hsc] using scanBest_isSome_of_acc score better rest (i, v)
      · by_cases hb : better v bv
        · simpa [scanBest, hsc, hb] using scanBest_isSome_of_acc score better rest (i, v)
        · simpa [scanBest, hsc, hb] using scanBest_isSome_of_acc score better rest (bi, bv)

theorem scanBest_min (score : ℤ → Option ℝ) :
    ∀ (l : List ℤ) (acc : Option (ℤ × ℝ)) (ri : ℤ) (rv : ℝ),
      scanBest score (· < ·) l acc = some (ri, rv) →
        (∀ bi bv, acc = some (bi, bv) → rv ≤ bv) ∧
        (∀ i ∈ l, ∀ v, score i = some v → rv ≤ v) := by
  intro l
  induction l with
  | nil =>
    intro acc ri rv h
    refine ⟨fun bi bv hacc => ?_, fun i hi => absurd hi (List.not_mem_nil i)⟩
    rw [hacc] at h
    simp only [scanBest] at h
    cases h
    rfl
  | cons i rest ih =>
    intro acc ri rv h
    rcases hsc : score i with _ | v
    · have h' : scanBest score (· < ·) rest acc = some (ri, rv) := by
        simpa [scanBest, hsc] using h
      rcases ih acc ri rv h' with ⟨hacc, hrest⟩
      refine ⟨hacc, fun j hj w hw => ?_⟩
      rcases List.mem_cons.mp hj with rfl | hjr
      · rw [hsc] at hw; cases hw
      · exact hrest j hjr w hw
    · rcases acc with _ | ⟨bi, bv⟩
      · have h' : scanBest score (· < ·) rest (some (i, v)) = some (ri, rv) := by
          simpa [scanBest, hsc] using h
        rcases ih (some (i, v)) ri rv h' with ⟨hacc, hrest⟩
        have hv : rv ≤ v := hacc i v rfl
        refine ⟨fun bi bv hbv => Option.noConfusion hbv, fun j hj w hw => ?_⟩
        rcases List.mem_cons.mp hj with rfl | hjr
        · rw [hsc] at hw; cases hw; exact hv
        · exact hrest j hjr w hw
      · by_cases hb : v < bv
        · have h' : scanBest score (· < ·) rest (some (i, v)) = some (ri, rv) := by
            simpa [scanBest, hsc, hb] using h
          rcases ih (some (i, v)) ri rv h' with ⟨hacc, hrest⟩
          have hv : rv ≤ v := hacc i v rfl
          refine ⟨fun bi' bv' hbv => ?_, fun j hj w hw => ?_⟩
          · cases hbv; exact le_of_lt (lt_of_le_of_lt hv hb)
          · rcases List.mem_cons.mp hj with rfl | hjr
            · rw [hsc] at hw; cases hw; exact hv
            · exact hrest j hjr w hw
        · have h' : scanBest score (· < ·) rest (some (bi, bv)) = some (ri, rv) := by
            simpa [scanBest, hsc, hb] using h
          rcases ih (some (bi, bv)) ri rv h' with ⟨hacc, hrest⟩
          have hbv' : rv ≤ bv := hacc bi bv rfl
          refine ⟨fun bi' bv' hbv => ?_, fun j hj w hw => ?_⟩
          · cases hbv; exact hbv'
          · rcases List.mem_cons.mp hj with rfl | hjr
            · rw [hsc] at hw; cases hw; exact le_trans hbv' (not_lt.mp hb)
            · exact hrest j hjr w hw

/-- The candidate indices examined by `findNearestZeroCrossing`: the loop
`for (let i = Math.max(0, target-radius); i < Math.min(length-1, target+radius) - 1; i++)`
keeps exactly the indices passing the sign-change test. -/
def fnzcCandidates (d : ℤ → ℚ) (L t r : ℤ) : List ℤ :=
  (intsFromTo (max 0 (t - r)) (min (L - 1) (t + r) - 2)).filter (isCross d)

/-- The weighted score of a crossing candidate in `findNearestZeroCrossing`:
`crossingValue·0.35 + (distance/(radius+ε))·0.25 + clamp(rmsDiff,0,2)·0.25 +
slopeDiff·0.15`, with the reference window/RMS/slope recomputed from the
same inputs the source computes them from before its loop. -/
noncomputable def fnzcScore (d : ℤ → ℚ) (L t r i : ℤ) : Option ℝ :=
  let refW := min 1024 (r / 2)
  let refStart := clampZ (t - refW / 2) 0 (L - refW)
  let refRMS := calculateRMS d L refStart refW
  let refSlope := jsSub (jsIndex d L (min (t + 1) (L - 1))) (jsIndex d L (max (t - 1) 0))
  let crossingValue : ℚ := |d i| + |d (i + 1)|
  let localRMS := calculateRMS d L (clampZ (i - refW / 2) 0 (L - refW)) refW
  let rmsDiff := jsDiv (jsAbs (jsSub refRMS localRMS)) (jsAdd refRMS (some (EPSILON : ℝ)))
  let slopeDiff := jsAbs (jsSub (some ((d (i + 1) - d i : ℚ) : ℝ)) refSlope)
  jsAdd
    (jsAdd
      (jsAdd (jsMul (some (crossingValue : ℝ)) (some 0.35))
        (jsMul (jsDiv (some ((|i - t| : ℤ) : ℝ)) (some ((r : ℝ) + (EPSILON : ℚ)))) (some 0.25)))
      (jsMul (jsClamp rmsDiff 0 2) (some 0.25)))
    (jsMul slopeDiff (some 0.15))

/-- `findNearestZeroCrossing(audioData, targetSample, searchRadius)` from
`audioProcessing.ts`: scan the window for sign changes, keep the candidate
with the smallest weighted score (`bestScore` starts at `Infinity`), fall
back to the target when nothing is selected. -/
noncomputable def findNearestZeroCrossing (d : ℤ → ℚ) (L t r : ℤ) : ℤ :=
  match scanBest (fnzcScore d L t r) (· < ·) (fnzcCandidates d L t r) none with
  | none => t
  | some (i, _) => i

theorem findNearestZeroCrossing_of_nil {d : ℤ → ℚ} {L t r : ℤ}
    (h : fnzcCandidates d L t r = []) : findNearestZeroCrossing d L t r = t := by
  unfold findNearestZeroCrossing
  rw [h]
  rfl

theorem mem_fnzcCandidates {d : ℤ → ℚ} {L t r i : ℤ} :
    i ∈ fnzcCandidates d L t r ↔
      max 0 (t - r) ≤ i ∧ i ≤ min (L - 1) (t + r) - 2 ∧ isCross d i := by
  unfold fnzcCandidates
  rw [List.mem_filter, mem_intsFromTo]
  tauto

theorem findNearestZeroCrossing_mem (d : ℤ → ℚ) (L t r : ℤ) :
    findNearestZeroCrossing d L t r = t ∨
      (max 0 (t - r) ≤ findNearestZeroCrossing d L t r ∧
       findNearestZeroCrossing d L t r ≤ min (L - 1) (t + r) - 2 ∧
       isCross d (findNearestZeroCrossing d L t r)) := by
  unfold findNearestZeroCrossing
  rcases scanBest_mem (fnzcScore d L t r) (· < ·) (fnzcCandidates d L t r) none with
    h | ⟨i, hi, v, hv, _⟩
  · rw [h]
    exact Or.inl rfl
  · rw [hv]
    exact Or.inr (mem_fnzcCandidates.mp hi)

/-- Bounds used by the pipeline: the result of the zero-crossing search is
either the target itself or an in-buffer index `0 ≤ i ≤ L - 3`. -/
theorem findNearestZeroCrossing_bounds (d : ℤ → ℚ) (L t r : ℤ) :
    findNearestZeroCrossing d L t r = t ∨
      (0 ≤ findNearestZeroCrossing d L t r ∧ findNearestZeroCrossing d L t r ≤ L - 3) := by
  rcases findNearestZeroCrossing_mem d L t r with h | ⟨h1, h2, _⟩
  · exact Or.inl h
  · refine Or.inr ⟨le_trans (le_max_left 0 (t - r)) h1, ?_⟩
    have := min_le_left (L - 1) (t + r)
    omega

theorem clampZ_window_ok {L refW v : ℤ} (hW : 1 ≤ refW) (hL : 1 ≤ L) :
    0 ≤ clampZ v 0 (L - refW) ∧
      1 ≤ min (clampZ v 0 (L - refW) + refW) L - clampZ v 0 (L - refW) := by
  unfold clampZ
  rcases le_total (L - refW) v with h | h <;>
    rcases le_total refW L with h2 | h2 <;>
      simp [min_def, max_def] <;> split_ifs <;> omega

theorem fnzcScore_isSome {d : ℤ → ℚ} {L t r : ℤ} (hr : 2 ≤ r) (hL : 1 ≤ L)
    (ht0 : 0 ≤ t) (htL : t ≤ L) (i : ℤ) : fnzcScore d L t r i ≠ none := by
  have hW : 1 ≤ min 1024 (r / 2) := by
    have : 1 ≤ r / 2 := by omega
    omega
  obtain ⟨hs1, hs2⟩ := clampZ_window_ok (v := t - min 1024 (r / 2) / 2) hW hL
  obtain ⟨refv, hrefv, hrefpos⟩ := calculateRMS_some_of d hs1 hs2
  obtain ⟨hs1', hs2'⟩ := clampZ_window_ok (v := i - min 1024 (r / 2) / 2) hW hL
  obtain ⟨locv, hlocv, _⟩ := calculateRMS_some_of d hs1' hs2'
  have hidx1 : jsIndex d L (min (t + 1) (L - 1)) =
      some ((d (min (t + 1) (L - 1)) : ℚ) : ℝ) := by
    unfold jsIndex
    rw [if_pos]
    omega
  have hidx2 : jsIndex d L (max (t - 1) 0) = some ((d (max (t - 1) 0) : ℚ) : ℝ) := by
    unfold jsIndex
    rw [if_pos]
    omega
  have hden : ((r : ℝ) + (EPSILON : ℚ)) ≠ 0 := by
    have : (2 : ℝ) ≤ (r : ℝ) := by exact_mod_cast hr
    have hε : (0 : ℝ) < ((EPSILON : ℚ) : ℝ) := by
      rw [show (EPSILON : ℚ) = 1/1000000 from rfl]
      norm_num
    positivity
  have hden2 : refv + ((EPSILON : ℚ) : ℝ) ≠ 0 := by
    have hε : (0 : ℝ) < ((EPSILON : ℚ) : ℝ) := by
      rw [show (EPSILON : ℚ) = 1/1000000 from rfl]
      norm_num
    positivity
  simp only [fnzcScore]
  rw [hrefv, hlocv, hidx1, hidx2]
  simp only [jsSub_some, jsAbs_some, jsAdd_some]
  rw [jsDiv_some_of_ne _ _ hden2, jsDiv_some_of_ne _ _ hden]
  simp

/-- If the scanned window contains a sign change (and the score
computation is over a nonempty buffer with a radius of at least 2 and an
in-range target, so that all scores are real numbers), the search returns
one of the scanned sign-change indices. -/
theorem findNearestZeroCrossing_finds {d : ℤ → ℚ} {L t r : ℤ} (hr : 2 ≤ r)
    (hL : 1 ≤ L) (ht0 : 0 ≤ t) (htL : t ≤ L)
    (hex : fnzcCandidates d L t r ≠ []) :
    findNearestZeroCrossing d L t r ∈ fnzcCandidates d L t r := by
  obtain ⟨i, hi⟩ := List.exists_mem_of_ne_nil _ hex
  have hne : scanBest (fnzcScore d L t r) (· < ·) (fnzcCandidates d L t r) none ≠ none :=
    scanBest_ne_none _ _ _ _ ⟨i, hi, fnzcScore_isSome hr hL ht0 htL i⟩
  unfold findNearestZeroCrossing
  rcases scanBest_mem (fnzcScore d L t r) (· < ·) (fnzcCandidates d L t r) none with
    h | ⟨j, hj, v, hv, _⟩
  · exact absurd h hne
  · rw [hv]
    exact hj

/-- The quantity minimized by `findVolumeMatchedPoints`:
`Math.abs(startRMS - endRMS)` for a candidate end `i`. -/
noncomputable def volumeRMSDiff (d : ℤ → ℚ) (L s i : ℤ) : Option ℝ :=
  jsAbs (jsSub (calculateRMS d L s 2048) (calculateRMS d L i 2048))

/-- `findVolumeMatchedPoints(audioData, startSample, endSample, searchRadius)`
from `audioProcessing.ts`: scan candidate ends
`Math.max(start+1000, end-radius) ≤ i < Math.min(length-1000, end+radius)`
in steps of 100, keeping the one minimizing `|RMS(start) - RMS(i)|`
(`minRMSDiff` starts at `Infinity`, `bestEndSample` at the original end). -/
noncomputable def findVolumeMatchedPoints (d : ℤ → ℚ) (L s e r : ℤ) : ℤ × ℤ :=
  (s,
    match scanBest (fun i => volumeRMSDiff d L s i) (· < ·)
        (steppedRange (max (s + 1000) (e - r)) (min (L - 1000) (e + r)) 100) none with
    | none => e
    | some (i, _) => i)

theorem findVolumeMatchedPoints_fst (d : ℤ → ℚ) (L s e r : ℤ) :
    (findVolumeMatchedPoints d L s e r).1 = s := rfl

theorem findVolumeMatchedPoints_mem (d : ℤ → ℚ) (L s e r : ℤ) :
    (findVolumeMatchedPoints d L s e r).2 = e ∨
      (findVolumeMatchedPoints d L s e r).2 ∈
        steppedRange (max (s + 1000) (e - r)) (min (L - 1000) (e + r)) 100 := by
  unfold findVolumeMatchedPoints
  rcases scanBest_mem (fun i => volumeRMSDiff d L s i) (· < ·)
      (steppedRange (max (s + 1000) (e - r)) (min (L - 1000) (e + r)) 100) none with
    h | ⟨i, hi, v, hv, _⟩
  · rw [h]
    exact Or.inl rfl
  · rw [hv]
    exact Or.inr hi

/-- `findPhaseMatchedPoint(audioData, startSample, endSample, searchRadius)`
from `audioProcessing.ts`: scan candidate ends in steps of 50, keeping the
one maximizing `crossCorrelation` (`maxCorrelation` starts at `-Infinity`;
a `NaN` correlation never wins a `>` comparison and is therefore never
selected). -/
noncomputable def findPhaseMatchedPoint (d : ℤ → ℚ) (L s e r : ℤ) : ℤ :=
  match scanBest (fun i => crossCorrelation d L s i 1024) (fun v bv => bv < v)
      (steppedRange (max (s + 1000) (e - r)) (min (L - 1024) (e + r)) 50) none with
  | none => e
  | some (i, _) => i

theorem findPhaseMatchedPoint_mem (d : ℤ → ℚ) (L s e r : ℤ) :
    findPhaseMatchedPoint d L s e r = e ∨
      (findPhaseMatchedPoint d L s e r ∈
          steppedRange (max (s + 1000) (e - r)) (min (L - 1024) (e + r)) 50 ∧
        crossCorrelation d L s (findPhaseMatchedPoint d L s e r) 1024 ≠ none) := by
  unfold findPhaseMatchedPoint
  rcases scanBest_mem (fun i => crossCorrelation d L s i 1024) (fun v bv => bv < v)
      (steppedRange (max (s + 1000) (e - r)) (min (L - 1024) (e + r)) 50) none with
    h | ⟨i, hi, v, hv, hsc⟩
  · rw [h]
    exact Or.inl rfl
  · rw [hv]
    exact Or.inr ⟨hi, by simp [hsc]⟩

/-- `getAdaptiveCrossfadeDuration(audioData, startSample, endSample,
sampleRate, requestedDuration)` from `audioProcessing.ts`. -/
noncomputable def getAdaptiveCrossfadeDuration (d : ℤ → ℚ) (L s e : ℤ)
    (sampleRate requestedDuration : ℚ) : Option ℝ :=
  let loopSamples : ℤ := max 1 (e - s)
  let loopDuration : ℚ := (loopSamples : ℚ) / sampleRate
  let analysisWindow : ℤ := min 4096 (loopSamples / 2)
  let startRMS := calculateRMS d L s analysisWindow
  let endRMS := calculateRMS d L (max s (e - analysisWindow)) analysisWindow
  let derivativeWindow : ℤ := min 2048 analysisWindow
  let startDerivative := averageAbsoluteDerivative d L s derivativeWindow
  let endDerivative :=
    averageAbsoluteDerivative d L (max s (e - derivativeWindow - 1)) derivativeWindow
  let rmsDiff := jsDiv (jsAbs (jsSub startRMS endRMS)) (jsMax startRMS (some ((EPSILON : ℚ) : ℝ)))
  let dynamicScore :=
    jsClamp (jsDiv (jsMax (Option.map (fun q : ℚ => (q : ℝ)) startDerivative)
      (Option.map (fun q : ℚ => (q : ℝ)) endDerivative)) (some 0.5)) 0 1
  let energyScore := jsClamp rmsDiff 0 1
  let baseDuration : ℚ := clampQ requestedDuration 0.015 0.2
  let adaptiveDuration :=
    jsAdd (jsAdd (some ((baseDuration : ℚ) : ℝ)) (jsMul energyScore (some 0.03)))
      (jsMul dynamicScore (some 0.04))
  let adaptiveDuration2 :=
    if loopDuration < 0.4 then
      jsMul adaptiveDuration (some ((clampQ (loopDuration / 0.4) 0.3 1 : ℚ) : ℝ))
    else adaptiveDuration
  let minDuration : ℚ := min 0.015 (loopDuration * 0.2)
  let maxDuration : ℚ := min 0.15 (loopDuration * 0.45)
  jsClamp adaptiveDuration2 ((max 0.01 minDuration : ℚ) : ℝ) ((max minDuration maxDuration : ℚ) : ℝ)

/-- Modelled from the spec: `removeDCOffset`, which `optimizeLoopPoints`
applies to the reference channel (audioProcessing.ts line 273), is not
among the provided sources.  The spec (§3) describes it as producing a
DC-offset-corrected copy of the channel; mirroring the in-source
`removeDCOffsetInPlace` of the crossfade module, the copy subtracts the
channel mean (denominator floored at 1) and is returned unchanged when
`|mean| < EPSILON`. -/
def removeDCOffset (d : ℤ → ℚ) (L : ℤ) : ℤ → ℚ :=
  if |((intsFromTo 0 (L - 1)).map d).sum / ((max 1 L : ℤ) : ℚ)| < EPSILON then d
  else fun i => d i - ((intsFromTo 0 (L - 1)).map d).sum / ((max 1 L : ℤ) : ℚ)

/-- `optimizeLoopPoints(audioBuffer, loopPoints, crossfadeDuration)` from
`audioProcessing.ts`: the full pipeline on the DC-corrected first channel —
zero-crossing snap of both ends (radius 2000), volume match of the end,
zero-crossing snap (500), phase match (2000), zero-crossing snap (200),
then the adaptive crossfade duration.  No input validation is performed. -/
noncomputable def optimizeLoopPoints (b : AudioBuffer) (lp : LoopPoints)
    (crossfadeDuration : ℚ) : OptimizedLoopPoints :=
  let sampleRate := b.sampleRate
  let L : ℤ := (b.length : ℤ)
  let audioData := removeDCOffset (b.channelData 0) L
  let s0 : ℤ := ⌊lp.start * sampleRate⌋
  let e0 : ℤ := ⌊lp.«end» * sampleRate⌋
  let s1 := findNearestZeroCrossing audioData L s0 2000
  let e1 := findNearestZeroCrossing audioData L e0 2000
  let e2 := (findVolumeMatchedPoints audioData L s1 e1 5000).2
  let e3 := findNearestZeroCrossing audioData L e2 500
  let e4 := findPhaseMatchedPoint audioData L s1 e3 2000
  let e5 := findNearestZeroCrossing audioData L e4 200
  { start := (s1 : ℚ) / sampleRate
    «end» := (e5 : ℚ) / sampleRate
    startSample := s1
    endSample := e5
    crossfadeDuration :=
      getAdaptiveCrossfadeDuration audioData L s1 e5 sampleRate crossfadeDuration }

theorem intsFromTo_nil {a b : ℤ} (h : b < a) : intsFromTo a b = [] := by
  unfold intsFromTo
  rw [show (b + 1 - a).toNat = 0 by omega]
  rfl

theorem steppedRange_nil {a b s : ℤ} (h : b ≤ a) (hs : 0 < s) :
    steppedRange a b s = [] := by
  unfold steppedRange
  have hlt : (b - a + s - 1) / s < 1 := by
    rw [Int.ediv_lt_iff_lt_mul hs]
    omega
  rw [show ((b - a + s - 1) / s).toNat = 0 by omega]
  rfl

theorem findNearestZeroCrossing_of_empty_window {d : ℤ → ℚ} {L t r : ℤ}
    (h : min (L - 1) (t + r) - 2 < max 0 (t - r)) :
    findNearestZeroCrossing d L t r = t := by
  apply findNearestZeroCrossing_of_nil
  unfold fnzcCandidates
  rw [intsFromTo_nil h]
  rfl

theorem findVolumeMatchedPoints_of_degenerate {d : ℤ → ℚ} {L s e r : ℤ}
    (h : min (L - 1000) (e + r) ≤ max (s + 1000) (e - r)) :
    (findVolumeMatchedPoints d L s e r).2 = e := by
  unfold findVolumeMatchedPoints
  rw [steppedRange_nil h (by norm_num)]
  rfl

theorem findPhaseMatchedPoint_of_degenerate {d : ℤ → ℚ} {L s e r : ℤ}
    (h : min (L - 1024) (e + r) ≤ max (s + 1000) (e - r)) :
    findPhaseMatchedPoint d L s e r = e := by
  unfold findPhaseMatchedPoint
  rw [steppedRange_nil h (by norm_num)]
  rfl

theorem findNearestZeroCrossing_range {d : ℤ → ℚ} {L t r : ℤ}
    (ht0 : 0 ≤ t) (htL : t ≤ L) :
    0 ≤ findNearestZeroCrossing d L t r ∧ findNearestZeroCrossing d L t r ≤ L := by
  rcases findNearestZeroCrossing_bounds d L t r with h | ⟨h1, h2⟩
  · rw [h]
    exact ⟨ht0, htL⟩
  · exact ⟨h1, by omega⟩

theorem findVolumeMatchedPoints_range {d : ℤ → ℚ} {L s e r : ℤ}
    (hs : 0 ≤ s) (he0 : 0 ≤ e) (heL : e ≤ L) :
    0 ≤ (findVolumeMatchedPoints d L s e r).2 ∧ (findVolumeMatchedPoints d L s e r).2 ≤ L := by
  rcases findVolumeMatchedPoints_mem d L s e r with h | h
  · rw [h]
    exact ⟨he0, heL⟩
  · obtain ⟨h1, h2⟩ := mem_steppedRange_bounds (by norm_num) h
    constructor
    · have := le_max_left (s + 1000) (e - r)
      omega
    · have := min_le_left (L - 1000) (e + r)
      omega

theorem findPhaseMatchedPoint_range {d : ℤ → ℚ} {L s e r : ℤ}
    (hs : 0 ≤ s) (he0 : 0 ≤ e) (heL : e ≤ L) :
    0 ≤ findPhaseMatchedPoint d L s e r ∧ findPhaseMatchedPoint d L s e r ≤ L := by
  rcases findPhaseMatchedPoint_mem d L s e r with h | ⟨h, _⟩
  · rw [h]
    exact ⟨he0, heL⟩
  · obtain ⟨h1, h2⟩ := mem_steppedRange_bounds (by norm_num) h
    constructor
    · have := le_max_left (s + 1000) (e - r)
      omega
    · have := min_le_left (L - 1024) (e + r)
      omega

/-- Core bounds fact about the optimizer: when the initial integer sample
positions are inside `[0, length]`, every stage keeps them there, so the
final `startSample` and `endSample` are inside `[0, length]` (but nothing
stronger: see the counterexamples for claims C1 and C2). -/
theorem optimizeLoopPoints_bounds_core (b : AudioBuffer) (lp : LoopPoints)
    (cf : ℚ) (hs0 : 0 ≤ ⌊lp.start * b.sampleRate⌋)
    (hs0L : ⌊lp.start * b.sampleRate⌋ ≤ (b.length : ℤ))
    (he0 : 0 ≤ ⌊lp.«end» * b.sampleRate⌋)
    (he0L : ⌊lp.«end» * b.sampleRate⌋ ≤ (b.length : ℤ)) :
    0 ≤ (optimizeLoopPoints b lp cf).startSample ∧
      (optimizeLoopPoints b lp cf).startSample ≤ (b.length : ℤ) ∧
      0 ≤ (optimizeLoopPoints b lp cf).endSample ∧
      (optimizeLoopPoints b lp cf).endSample ≤ (b.length : ℤ) := by
  have hs1 := findNearestZeroCrossing_range
    (d := removeDCOffset (b.channelData 0) (b.length : ℤ)) (r := 2000) hs0 hs0L
  have he1 := findNearestZeroCrossing_range
    (d := removeDCOffset (b.channelData 0) (b.length : ℤ)) (r := 2000) he0 he0L
  have he2 := findVolumeMatchedPoints_range
    (d := removeDCOffset (b.channelData 0) (b.length : ℤ)) (r := 5000) hs1.1 he1.1 he1.2
  have he3 := findNearestZeroCrossing_range
    (d := removeDCOffset (b.channelData 0) (b.length : ℤ)) (r := 500) he2.1 he2.2
  have he4 := findPhaseMatchedPoint_range
    (d := removeDCOffset (b.channelData 0) (b.length : ℤ)) (r := 2000) hs1.1 he3.1 he3.2
  have he5 := findNearestZeroCrossing_range
    (d := removeDCOffset (b.channelData 0) (b.length : ℤ)) (r := 200) he4.1 he4.2
  simp only [optimizeLoopPoints]
  exact ⟨hs1.1, hs1.2, he5.1, he5.2⟩

/-- A one-sample silent mono buffer at sample rate 1. -/
def cexBuffer1 : AudioBuffer where
  numberOfChannels := 1
  length := 1
  sampleRate := 1
  channelData := fun _ _ => 0

theorem removeDCOffset_zero_one : removeDCOffset (fun _ => (0 : ℚ)) 1 = fun _ => (0 : ℚ) := by
  unfold removeDCOffset
  rw [if_pos]
  simp [EPSILON]

theorem cexBuffer1_eval_valid :
    (optimizeLoopPoints cexBuffer1 ⟨0, 1⟩ (1/20)).startSample = 0 ∧
      (optimizeLoopPoints cexBuffer1 ⟨0, 1⟩ (1/20)).endSample = 1 := by
  simp only [optimizeLoopPoints, cexBuffer1]
  norm_num
  rw [removeDCOffset_zero_one]
  rw [findNearestZeroCrossing_of_empty_window (by norm_num)]
  rw [findNearestZeroCrossing_of_empty_window (by norm_num)]
  rw [findVolumeMatchedPoints_of_degenerate (by norm_num)]
  rw [findNearestZeroCrossing_of_empty_window (by norm_num)]
  rw [findPhaseMatchedPoint_of_degenerate (by norm_num)]
  rw [findNearestZeroCrossing_of_empty_window (by norm_num)]
  exact ⟨rfl, rfl⟩

theorem cexBuffer1_eval_invalid :
    (optimizeLoopPoints cexBuffer1 ⟨1, 1⟩ (1/20)).startSample = 1 ∧
      (optimizeLoopPoints cexBuffer1 ⟨1, 1⟩ (1/20)).endSample = 1 := by
  simp only [optimizeLoopPoints, cexBuffer1]
  norm_num
  rw [removeDCOffset_zero_one]
  rw [findNearestZeroCrossing_of_empty_window (by norm_num)]
  rw [findVolumeMatchedPoints_of_degenerate (by norm_num)]
  rw [findNearestZeroCrossing_of_empty_window (by norm_num)]
  rw [findPhaseMatchedPoint_of_degenerate (by norm_num)]
  rw [findNearestZeroCrossing_of_empty_window (by norm_num)]
  exact ⟨rfl, rfl⟩

/-- C1 (amended): for every input buffer with at least one sample, positive
sample rate, and loop selection `0 ≤ start < end ≤ duration`, the record
returned by `optimizeLoopPoints` satisfies `0 ≤ startSample ≤ length` and
`0 ≤ endSample ≤ length`.  (The originally claimed `endSample ≤ length - 1`
is refuted by `optimizeLoopPoints_endSample_at_length`, and the strict
ordering `startSample < endSample` is likewise not guaranteed by the code:
the zero-crossing stages can move both ends onto the same crossing.) -/
theorem optimizeLoopPoints_sample_range (b : AudioBuffer) (lp : LoopPoints) (cf : ℚ)
    (hsr : 0 < b.sampleRate) (h0 : 0 ≤ lp.start) (hlt : lp.start < lp.«end»)
    (hdur : lp.«end» ≤ (b.length : ℚ) / b.sampleRate) :
    0 ≤ (optimizeLoopPoints b lp cf).startSample ∧
      (optimizeLoopPoints b lp cf).startSample ≤ (b.length : ℤ) ∧
      0 ≤ (optimizeLoopPoints b lp cf).endSample ∧
      (optimizeLoopPoints b lp cf).endSample ≤ (b.length : ℤ) := by
  have hendL : lp.«end» * b.sampleRate ≤ (b.length : ℚ) := by
    rw [le_div_iff hsr] at hdur
    exact hdur
  have hstartL : lp.start * b.sampleRate ≤ (b.length : ℚ) :=
    le_trans (mul_le_mul_of_nonneg_right hlt.le hsr.le) hendL
  apply optimizeLoopPoints_bounds_core
  · exact Int.floor_nonneg.mpr (mul_nonneg h0 hsr.le)
  · calc ⌊lp.start * b.sampleRate⌋ ≤ ⌊((b.length : ℤ) : ℚ)⌋ :=
          Int.floor_le_floor (by exact_mod_cast hstartL)
      _ = (b.length : ℤ) := Int.floor_intCast _
  · exact Int.floor_nonneg.mpr (mul_nonneg (le_trans h0 hlt.le) hsr.le)
  · calc ⌊lp.«end» * b.sampleRate⌋ ≤ ⌊((b.length : ℤ) : ℚ)⌋ :=
          Int.floor_le_floor (by exact_mod_cast hendL)
      _ = (b.length : ℤ) := Int.floor_intCast _

/-- C1 (witness). -/
theorem optimizeLoopPoints_sample_range_witness :
    0 ≤ (optimizeLoopPoints cexBuffer1 ⟨0, 1⟩ (1/20)).startSample ∧
      (optimizeLoopPoints cexBuffer1 ⟨0, 1⟩ (1/20)).startSample ≤ (cexBuffer1.length : ℤ) ∧
      0 ≤ (optimizeLoopPoints cexBuffer1 ⟨0, 1⟩ (1/20)).endSample ∧
      (optimizeLoopPoints cexBuffer1 ⟨0, 1⟩ (1/20)).endSample ≤ (cexBuffer1.length : ℤ) :=
  optimizeLoopPoints_sample_range cexBuffer1 ⟨0, 1⟩ (1/20)
    (by norm_num [cexBuffer1]) (by norm_num) (by norm_num) (by norm_num [cexBuffer1])

/-- C1 (counterexample): on a one-sample buffer with the valid selection
`start = 0 < end = 1 = duration`, the optimizer returns
`endSample = 1 = length`, violating the claimed `endSample ≤ length - 1`. -/
theorem optimizeLoopPoints_endSample_at_length :
    ((0 : ℚ) ≤ 0 ∧ (0 : ℚ) < 1 ∧ (1 : ℚ) ≤ (cexBuffer1.length : ℚ) / cexBuffer1.sampleRate) ∧
      1 ≤ cexBuffer1.length ∧
      ¬ ((optimizeLoopPoints cexBuffer1 ⟨0, 1⟩ (1/20)).endSample ≤ (cexBuffer1.length : ℤ) - 1) := by
  refine ⟨⟨le_refl _, by norm_num, by norm_num [cexBuffer1]⟩, by norm_num [cexBuffer1], ?_⟩
  rw [cexBuffer1_eval_valid.2]
  norm_num [cexBuffer1]

/-- C2 (amended): `optimizeLoopPoints` performs no input validation — a
call whose selection has `start ≥ end` (both bounds inside `[0, duration]`)
is not rejected with an error: every stage runs and an `OptimizedLoopPoints`
record is produced, its sample fields landing inside `[0, length]` exactly
as for valid inputs.  Zero-length buffers and non-positive crossfades are
likewise absorbed (producing `NaN`-valued fields) rather than rejected. -/
theorem optimizeLoopPoints_no_rejection (b : AudioBuffer) (lp : LoopPoints) (cf : ℚ)
    (hsr : 0 < b.sampleRate) (h0 : 0 ≤ lp.«end») (hge : lp.«end» ≤ lp.start)
    (hdur : lp.start ≤ (b.length : ℚ) / b.sampleRate) :
    0 ≤ (optimizeLoopPoints b lp cf).startSample ∧
      (optimizeLoopPoints b lp cf).startSample ≤ (b.length : ℤ) ∧
      0 ≤ (optimizeLoopPoints b lp cf).endSample ∧
      (optimizeLoopPoints b lp cf).endSample ≤ (b.length : ℤ) := by
  have hstartL : lp.start * b.sampleRate ≤ (b.length : ℚ) := by
    rw [le_div_iff hsr] at hdur
    exact hdur
  have hendL : lp.«end» * b.sampleRate ≤ (b.length : ℚ) :=
    le_trans (mul_le_mul_of_nonneg_right hge hsr.le) hstartL
  apply optimizeLoopPoints_bounds_core
  · exact Int.floor_nonneg.mpr (mul_nonneg (le_trans h0 hge) hsr.le)
  · calc ⌊lp.start * b.sampleRate⌋ ≤ ⌊((b.length : ℤ) : ℚ)⌋ :=
          Int.floor_le_floor (by exact_mod_cast hstartL)
      _ = (b.length : ℤ) := Int.floor_intCast _
  · exact Int.floor_nonneg.mpr (mul_nonneg h0 hsr.le)
  · calc ⌊lp.«end» * b.sampleRate⌋ ≤ ⌊((b.length : ℤ) : ℚ)⌋ :=
          Int.floor_le_floor (by exact_mod_cast hendL)
      _ = (b.length : ℤ) := Int.floor_intCast _

/-- C2 (witness). -/
theorem optimizeLoopPoints_no_rejection_witness :
    0 ≤ (optimizeLoopPoints cexBuffer1 ⟨1, 1⟩ (1/20)).startSample ∧
      (optimizeLoopPoints cexBuffer1 ⟨1, 1⟩ (1/20)).startSample ≤ (cexBuffer1.length : ℤ) ∧
      0 ≤ (optimizeLoopPoints cexBuffer1 ⟨1, 1⟩ (1/20)).endSample ∧
      (optimizeLoopPoints cexBuffer1 ⟨1, 1⟩ (1/20)).endSample ≤ (cexBuffer1.length : ℤ) :=
  optimizeLoopPoints_no_rejection cexBuffer1 ⟨1, 1⟩ (1/20)
    (by norm_num [cexBuffer1]) (by norm_num) (by norm_num) (by norm_num [cexBuffer1])

/-- C2 (counterexample): a call with `start = end = 1` — which the claim
says must be rejected with an explicit error before any optimization stage
runs, with no `OptimizedLoopPoints` produced — is processed normally by the
code: every stage runs and the record `startSample = endSample = 1` is
returned. -/
theorem optimizeLoopPoints_accepts_invalid :
    ((1 : ℚ) ≥ (1 : ℚ)) ∧
      (optimizeLoopPoints cexBuffer1 ⟨1, 1⟩ (1/20)).startSample = 1 ∧
      (optimizeLoopPoints cexBuffer1 ⟨1, 1⟩ (1/20)).endSample = 1 :=
  ⟨le_refl _, cexBuffer1_eval_invalid⟩

/-- C3 (amended): for every analysis buffer of length `L ≥ 1`, target
`0 ≤ t ≤ L` and radius `r ≥ 2`: if some index of the window actually
scanned by the loop — `max 0 (t-r) ≤ i ≤ min (L-1) (t+r) - 2`, which
excludes the window's final pair — passes the sign-change test, then
`findNearestZeroCrossing` returns a scanned index passing the sign-change
test; if no scanned index passes it, the original target is returned
unchanged and no failure is signalled.  (The original claim, which promises
a crossing whenever a sign change lies anywhere within the search radius,
is refuted by `findNearestZeroCrossing_misses_crossing_in_radius`: the scan
stops two indices short of the window end.) -/
theorem findNearestZeroCrossing_spec (d : ℤ → ℚ) (L t r : ℤ) :
    ((2 ≤ r ∧ 1 ≤ L ∧ 0 ≤ t ∧ t ≤ L ∧
        ∃ i, max 0 (t - r) ≤ i ∧ i ≤ min (L - 1) (t + r) - 2 ∧ isCross d i = true) →
      (max 0 (t - r) ≤ findNearestZeroCrossing d L t r ∧
        findNearestZeroCrossing d L t r ≤ min (L - 1) (t + r) - 2 ∧
        isCross d (findNearestZeroCrossing d L t r) = true)) ∧
    ((∀ i, max 0 (t - r) ≤ i → i ≤ min (L - 1) (t + r) - 2 → isCross d i = false) →
      findNearestZeroCrossing d L t r = t) := by
  constructor
  · rintro ⟨hr, hL, ht0, htL, i, hi1, hi2, hic⟩
    have hmem : i ∈ fnzcCandidates d L t r := mem_fnzcCandidates.mpr ⟨hi1, hi2, hic⟩
    have hne : fnzcCandidates d L t r ≠ [] := fun h => by
      rw [h] at hmem
      exact List.not_mem_nil i hmem
    exact mem_fnzcCandidates.mp (findNearestZeroCrossing_finds hr hL ht0 htL hne)
  · intro hnone
    apply findNearestZeroCrossing_of_nil
    unfold fnzcCandidates
    apply List.filter_eq_nil.mpr
    intro a ha
    rw [mem_intsFromTo] at ha
    rw [hnone a ha.1 ha.2]
    exact Bool.false_ne_true

/-- The buffer `[1, 1, -1, -1, 1]` (constant outside); its only scanned
sign change for target 2, radius 2 is at index 1. -/
def cexData5 : ℤ → ℚ := fun i => if i ≤ 1 then 1 else if i ≤ 3 then -1 else 1

/-- C3 (witness). -/
theorem findNearestZeroCrossing_spec_witness :
    (2 ≤ (2 : ℤ) ∧ 1 ≤ (5 : ℤ) ∧ 0 ≤ (2 : ℤ) ∧ (2 : ℤ) ≤ 5 ∧ isCross cexData5 1 = true) ∧
      isCross cexData5 (findNearestZeroCrossing cexData5 5 2 2) = true := by
  have hic : isCross cexData5 1 = true := by
    simp only [isCross, cexData5, decide_eq_true_eq]
    norm_num
  refine ⟨⟨by norm_num, by norm_num, by norm_num, by norm_num, hic⟩, ?_⟩
  exact ((findNearestZeroCrossing_spec cexData5 5 2 2).1
    ⟨by norm_num, by norm_num, by norm_num, by norm_num,
      1, by norm_num, by norm_num, hic⟩).2.2

/-- The buffer `[1,1,1,1,1,1,-1,-1,…]`: its single sign change sits at the
pair `(5, 6)`. -/
def cexData10 : ℤ → ℚ := fun i => if i ≤ 5 then 1 else -1

/-- C3 (counterexample): in the buffer `cexData10` of length 10, the sign
change at pair `(5, 6)` lies within radius 3 of target 3 (`|5 - 3| ≤ 3`),
yet `findNearestZeroCrossing` returns the target 3 itself, where there is
no sign change and neither sample is zero: the loop scans only up to index
`min(length-1, target+radius) - 2 = 4`. -/
theorem findNearestZeroCrossing_misses_crossing_in_radius :
    isCross cexData10 5 = true ∧ (|(5 : ℤ) - 3| ≤ 3) ∧
      findNearestZeroCrossing cexData10 10 3 3 = 3 ∧
      isCross cexData10 3 = false ∧ cexData10 3 ≠ 0 ∧ cexData10 4 ≠ 0 := by
  refine ⟨?_, by norm_num, ?_, ?_, by norm_num [cexData10], by norm_num [cexData10]⟩
  · simp only [isCross, cexData10, decide_eq_true_eq]
    norm_num
  · apply findNearestZeroCrossing_of_nil
    unfold fnzcCandidates
    apply List.filter_eq_nil.mpr
    intro a ha
    rw [mem_intsFromTo] at ha
    simp only [isCross, cexData10, decide_eq_true_eq]
    have ha5 : a ≤ 5 := by omega
    have ha5' : a + 1 ≤ 5 := by omega
    rw [if_pos ha5, if_pos ha5']
    norm_num
  · simp only [isCross, cexData10]
    rw [decide_eq_false_iff_not]
    norm_num

theorem volumeRMSDiff_some (d : ℤ → ℚ) {L s i : ℤ} (hs0 : 0 ≤ s) (hsL : s < L)
    (hi0 : 0 ≤ i) (hiL : i < L) : ∃ v, volumeRMSDiff d L s i = some v := by
  obtain ⟨a, ha, _⟩ := calculateRMS_some_of (L := L) (w := 2048) d hs0 (by omega)
  obtain ⟨c, hc, _⟩ := calculateRMS_some_of (L := L) (w := 2048) d hi0 (by omega)
  exact ⟨|a - c|, by rw [volumeRMSDiff, ha, hc]; rfl⟩

/-- C4: for every analysis buffer, nonnegative start sample, end sample
and radius, with `searchStart = max(start+1000, end-radius)` and
`searchEnd = min(length-1000, end+radius)`: if `searchEnd ≤ searchStart`
the original end is returned; if the range is non-degenerate the returned
end lies in `[searchStart, searchEnd)`, its RMS difference against the
start window is a real number, and no stepped candidate
`searchStart, searchStart+100, …` in the range has a strictly smaller
`|RMS(start) - RMS(candidate)|`. -/
theorem findVolumeMatchedPoints_spec (d : ℤ → ℚ) (L s e r : ℤ) (hs : 0 ≤ s) :
    (min (L - 1000) (e + r) ≤ max (s + 1000) (e - r) →
      (findVolumeMatchedPoints d L s e r).2 = e) ∧
    (max (s + 1000) (e - r) < min (L - 1000) (e + r) →
      (max (s + 1000) (e - r) ≤ (findVolumeMatchedPoints d L s e r).2 ∧
        (findVolumeMatchedPoints d L s e r).2 < min (L - 1000) (e + r)) ∧
      ∃ u, volumeRMSDiff d L s (findVolumeMatchedPoints d L s e r).2 = some u ∧
        ∀ i ∈ steppedRange (max (s + 1000) (e - r)) (min (L - 1000) (e + r)) 100,
          ∀ v, volumeRMSDiff d L s i = some v → u ≤ v) := by
  constructor
  · intro h
    exact findVolumeMatchedPoints_of_degenerate h
  · intro h
    have hsL : s < L := by
      have h1 := le_max_left (s + 1000) (e - r)
      have h2 := min_le_left (L - 1000) (e + r)
      omega
    have hscore : ∀ i ∈ steppedRange (max (s + 1000) (e - r)) (min (L - 1000) (e + r)) 100,
        ∃ v, volumeRMSDiff d L s i = some v := by
      intro i hi
      obtain ⟨hi1, hi2⟩ := mem_steppedRange_bounds (by norm_num) hi
      have hi0 : 0 ≤ i := by
        have := le_max_left (s + 1000) (e - r)
        omega
      have hiL : i < L := by
        have := min_le_left (L - 1000) (e + r)
        omega
      exact volumeRMSDiff_some d hs hsL hi0 hiL
    have hhead := steppedRange_head_mem 100 (by norm_num) h
    obtain ⟨v0, hv0⟩ := hscore _ hhead
    have hne := scanBest_ne_none (fun i => volumeRMSDiff d L s i) (· < ·)
      (steppedRange (max (s + 1000) (e - r)) (min (L - 1000) (e + r)) 100) none
      ⟨_, hhead, by
        show volumeRMSDiff d L s _ ≠ none
        rw [hv0]
        exact Option.some_ne_none _⟩
    rcases hscan : scanBest (fun i => volumeRMSDiff d L s i) (· < ·)
        (steppedRange (max (s + 1000) (e - r)) (min (L - 1000) (e + r)) 100) none
      with _ | ⟨ri, rv⟩
    · exact absurd hscan hne
    · have hres : (findVolumeMatchedPoints d L s e r).2 = ri := by
        unfold findVolumeMatchedPoints
        rw [hscan]
      rcases scanBest_mem (fun i => volumeRMSDiff d L s i) (· < ·)
          (steppedRange (max (s + 1000) (e - r)) (min (L - 1000) (e + r)) 100) none
        with hmem | ⟨j, hj, w, hw, hsj⟩
      · rw [hscan] at hmem
        exact absurd hmem (Option.some_ne_none _)
      · rw [hscan, Option.some.injEq, Prod.mk.injEq] at hw
        obtain ⟨rfl, rfl⟩ := hw
        obtain ⟨-, hmin⟩ := scanBest_min (fun i => volumeRMSDiff d L s i) _ none _ _ hscan
        refine ⟨hres ▸ mem_steppedRange_bounds (by norm_num) hj, rv, ?_, ?_⟩
        · rw [hres]
          exact hsj
        · intro i hi v hv
          exact hmin i hi v hv

/-- C4 (witness). -/
theorem findVolumeMatchedPoints_spec_witness :
    (max ((0 : ℤ) + 1000) (1000 - 5) < min (2001 - 1000) (1000 + 5) →
      (max ((0 : ℤ) + 1000) (1000 - 5) ≤
          (findVolumeMatchedPoints (fun _ => 0) 2001 0 1000 5).2 ∧
        (findVolumeMatchedPoints (fun _ => 0) 2001 0 1000 5).2 <
          min ((2001 : ℤ) - 1000) (1000 + 5)) ∧
      ∃ u, volumeRMSDiff (fun _ => 0) 2001 0
            (findVolumeMatchedPoints (fun _ => 0) 2001 0 1000 5).2 = some u ∧
        ∀ i ∈ steppedRange (max ((0 : ℤ) + 1000) (1000 - 5))
            (min ((2001 : ℤ) - 1000) (1000 + 5)) 100,
          ∀ v, volumeRMSDiff (fun _ => 0) 2001 0 i = some v → u ≤ v) ∧
      max ((0 : ℤ) + 1000) (1000 - 5) < min (2001 - 1000) (1000 + 5) :=
  ⟨(findVolumeMatchedPoints_spec (fun _ => 0) 2001 0 1000 5 (by norm_num)).2, by norm_num⟩

/-- C5: for every buffer and scan range, the end sample returned by
`findPhaseMatchedPoint` is either the original end or a scanned candidate
whose cross-correlation against the start window is a real (non-`NaN`)
value: a candidate whose correlation is `NaN` (a zero-norm window) is never
selected as the maximum, because a JS `>` comparison against `NaN` is
false. -/
theorem findPhaseMatchedPoint_no_nan_selected (d : ℤ → ℚ) (L s e r : ℤ) :
    findPhaseMatchedPoint d L s e r = e ∨
      (findPhaseMatchedPoint d L s e r ∈
          steppedRange (max (s + 1000) (e - r)) (min (L - 1024) (e + r)) 50 ∧
        crossCorrelation d L s (findPhaseMatchedPoint d L s e r) 1024 ≠ none) :=
  findPhaseMatchedPoint_mem d L s e r

theorem averageAbsoluteDerivative_some (d : ℤ → ℚ) (L s w : ℤ) (hs : 0 ≤ s) :
    ∃ q, averageAbsoluteDerivative d L s w = some q := by
  unfold averageAbsoluteDerivative
  rw [if_neg]
  · exact ⟨_, rfl⟩
  · rintro ⟨h1, _⟩
    omega

/-- The final clamp of `getAdaptiveCrossfadeDuration` keeps any value
inside `[0.01, max 0.015 (min 0.15 (loopDuration·0.45))]`. -/
theorem adaptiveClamp_bounds (ld : ℚ) (x : ℝ) :
    (0.01 : ℝ) ≤ max ((max 0.01 (min 0.015 (ld * 0.2)) : ℚ) : ℝ)
        (min ((max (min 0.015 (ld * 0.2)) (min 0.15 (ld * 0.45)) : ℚ) : ℝ) x) ∧
      max ((max 0.01 (min 0.015 (ld * 0.2)) : ℚ) : ℝ)
        (min ((max (min 0.015 (ld * 0.2)) (min 0.15 (ld * 0.45)) : ℚ) : ℝ) x) ≤
      ((max 0.015 (min 0.15 (ld * 0.45)) : ℚ) : ℝ) := by
  constructor
  · refine le_trans ?_ (le_max_left _ _)
    have h1 : (0.01 : ℚ) ≤ max 0.01 (min 0.015 (ld * 0.2)) := le_max_left _ _
    have h2 := Rat.cast_le (K := ℝ).mpr h1
    calc (0.01 : ℝ) = ((0.01 : ℚ) : ℝ) := by norm_num
      _ ≤ _ := h2
  · have hup : max ((max 0.01 (min 0.015 (ld * 0.2)) : ℚ) : ℝ)
        (min ((max (min 0.015 (ld * 0.2)) (min 0.15 (ld * 0.45)) : ℚ) : ℝ) x) ≤
        max ((max 0.01 (min 0.015 (ld * 0.2)) : ℚ) : ℝ)
          ((max (min 0.015 (ld * 0.2)) (min 0.15 (ld * 0.45)) : ℚ) : ℝ) :=
      max_le_max (le_refl _) (min_le_left _ _)
    refine le_trans hup ?_
    rw [← Rat.cast_max]
    apply Rat.cast_le (K := ℝ).mpr
    apply max_le
    · apply max_le
      · apply le_trans (by norm_num : (0.01 : ℚ) ≤ 0.015) (le_max_left _ _)
      · exact le_trans (min_le_left _ _) (le_max_left _ _)
    · exact max_le (le_trans (min_le_left _ _) (le_max_left _ _)) (le_max_right _ _)

/-- C6 (amended): for every analysis buffer, `0 ≤ start`,
`start + 2 ≤ end ≤ length` and positive sample rate, the returned adaptive
crossfade duration is a real number `v` with `0.01 ≤ v` and
`v ≤ max 0.015 (min 0.15 (loopDuration·0.45))` where
`loopDuration = (end-start)/sampleRate`.  (The originally claimed upper
bound `min 0.15 (loopDuration·0.45)` — in particular that the result never
exceeds the loop duration — is refuted by
`getAdaptiveCrossfadeDuration_exceeds_bound`: for very short loops the
lower clamp bound `0.01` wins over the upper bound.) -/
theorem getAdaptiveCrossfadeDuration_bounds (d : ℤ → ℚ) (L s e : ℤ) (sr req : ℚ)
    (hs : 0 ≤ s) (hse : s + 2 ≤ e) (heL : e ≤ L) (hsr : 0 < sr) :
    ∃ v : ℝ, getAdaptiveCrossfadeDuration d L s e sr req = some v ∧
      (0.01 : ℝ) ≤ v ∧
      v ≤ ((max 0.015 (min 0.15 (((e - s : ℤ) : ℚ) / sr * 0.45)) : ℚ) : ℝ) := by
  have hls : max 1 (e - s) = e - s := max_eq_right (by omega)
  have haw : 1 ≤ min 4096 ((e - s) / 2) := by omega
  obtain ⟨a, ha, ha0⟩ := calculateRMS_some_of (L := L) (w := min 4096 ((e - s) / 2)) d hs
    (by omega)
  obtain ⟨c, hc, hc0⟩ := calculateRMS_some_of (L := L) (w := min 4096 ((e - s) / 2))
    (s := max s (e - min 4096 ((e - s) / 2))) d (le_trans hs (le_max_left _ _)) (by omega)
  obtain ⟨q1, hq1⟩ := averageAbsoluteDerivative_some d L s
    (min 2048 (min 4096 ((e - s) / 2))) hs
  obtain ⟨q2, hq2⟩ := averageAbsoluteDerivative_some d L
    (max s (e - min 2048 (min 4096 ((e - s) / 2)) - 1)) (min 2048 (min 4096 ((e - s) / 2)))
    (le_trans hs (le_max_left _ _))
  have hεpos : (0 : ℝ) < ((EPSILON : ℚ) : ℝ) := by norm_num [EPSILON]
  have hden1 : max a ((EPSILON : ℚ) : ℝ) ≠ 0 :=
    ne_of_gt (lt_of_lt_of_le hεpos (le_max_right _ _))
  have hden2 : (0.5 : ℝ) ≠ 0 := by norm_num
  simp only [getAdaptiveCrossfadeDuration]
  rw [hls, ha, hc, hq1, hq2]
  simp only [Option.map_some', jsSub_some, jsAbs_some, jsMax_some, jsAdd_some, jsMul_some]
  rw [jsDiv_some_of_ne _ _ hden1, jsDiv_some_of_ne _ _ hden2]
  simp only [jsClamp_some, jsAdd_some, jsMul_some]
  split_ifs with hld
  · simp only [jsMul_some, jsClamp_some]
    exact ⟨_, rfl, adaptiveClamp_bounds _ _⟩
  · simp only [jsClamp_some]
    exact ⟨_, rfl, adaptiveClamp_bounds _ _⟩

/-- C6 (witness). -/
theorem getAdaptiveCrossfadeDuration_bounds_witness :
    ∃ v : ℝ, getAdaptiveCrossfadeDuration (fun _ => 0) 44 0 44 44100 (1/20) = some v ∧
      (0.01 : ℝ) ≤ v ∧
      v ≤ ((max 0.015 (min 0.15 (((44 - 0 : ℤ) : ℚ) / 44100 * 0.45)) : ℚ) : ℝ) :=
  getAdaptiveCrossfadeDuration_bounds (fun _ => 0) 44 0 44 44100 (1/20)
    (by norm_num) (by norm_num) (by norm_num) (by norm_num)

theorem calculateRMS_zero_eval {L s w : ℤ} (h0 : ¬ (min (s + w) L - s = 0))
    (h1 : ¬ (min (s + w) L - s < 0)) (h2 : ¬ (s < 0)) :
    calculateRMS (fun _ => (0 : ℚ)) L s w = some 0 := by
  unfold calculateRMS
  rw [if_neg h0, if_neg h1, if_neg h2]
  have hz : rmsSumSq (fun _ => (0 : ℚ)) s (min (s + w) L) = 0 := by
    simp [rmsSumSq]
  rw [hz]
  norm_num

theorem averageAbsoluteDerivative_zero_eval {L s w : ℤ} (hs : 0 ≤ s) :
    averageAbsoluteDerivative (fun _ => (0 : ℚ)) L s w = some 0 := by
  unfold averageAbsoluteDerivative
  rw [if_neg (by omega)]
  have hz : aadSum (fun _ => (0 : ℚ)) s (min (s + w) (L - 1)) = 0 := by
    simp [aadSum]
  rw [hz]
  norm_num

/-- C6 (counterexample): on a 44-sample silent buffer at 44100 Hz with the
whole buffer selected (`loopDuration = 44/44100 ≈ 1 ms`), the adaptive
crossfade duration is `0.01`, which exceeds both the claimed upper bound
`min(0.15, loopDuration·0.45)` and the loop duration itself. -/
theorem getAdaptiveCrossfadeDuration_exceeds_bound :
    getAdaptiveCrossfadeDuration (fun _ => 0) 44 0 44 44100 (1/20) = some 0.01 ∧
      ((min 0.15 ((44 : ℚ) / 44100 * 0.45) : ℚ) : ℝ) < 0.01 ∧
      (((44 : ℚ) / 44100 : ℚ) : ℝ) < 0.01 := by
  refine ⟨?_, by norm_num, by norm_num⟩
  have hrms1 : calculateRMS (fun _ => (0 : ℚ)) 44 0 (min 4096 ((44 - 0) / 2)) = some 0 :=
    calculateRMS_zero_eval (by norm_num) (by norm_num) (by norm_num)
  have hrms2 : calculateRMS (fun _ => (0 : ℚ)) 44 (max 0 (44 - min 4096 ((44 - 0) / 2)))
      (min 4096 ((44 - 0) / 2)) = some 0 :=
    calculateRMS_zero_eval (by norm_num) (by norm_num) (by norm_num)
  have haad1 : averageAbsoluteDerivative (fun _ => (0 : ℚ)) 44 0
      (min 2048 (min 4096 ((44 - 0) / 2))) = some 0 :=
    averageAbsoluteDerivative_zero_eval (by norm_num)
  have haad2 : averageAbsoluteDerivative (fun _ => (0 : ℚ)) 44
      (max 0 (44 - min 2048 (min 4096 ((44 - 0) / 2)) - 1))
      (min 2048 (min 4096 ((44 - 0) / 2))) = some 0 :=
    averageAbsoluteDerivative_zero_eval (le_max_left _ _)
  have hεpos : (0 : ℝ) < ((EPSILON : ℚ) : ℝ) := by norm_num [EPSILON]
  simp only [getAdaptiveCrossfadeDuration]
  rw [show max 1 (44 - 0 : ℤ) = 44 - 0 from by norm_num]
  rw [hrms1, hrms2, haad1, haad2]
  simp only [Option.map_some', jsSub_some, jsAbs_some, jsMax_some, jsAdd_some, jsMul_some]
  rw [jsDiv_some_of_ne _ _ (ne_of_gt (lt_of_lt_of_le hεpos (le_max_right _ _)))]
  rw [jsDiv_some_of_ne _ _ (by norm_num : (0.5 : ℝ) ≠ 0)]
  simp only [jsClamp_some, jsAdd_some, jsMul_some]
  rw [if_pos (by norm_num : ((44 - 0 : ℤ) : ℚ) / 44100 < 0.4)]
  simp only [jsMul_some, jsClamp_some, Option.some.injEq]
  have h1 : clampQ (1/20) 0.015 0.2 = 1/20 := by
    unfold clampQ
    norm_num
  have h2 : clampQ (((44 - 0 : ℤ) : ℚ) / 44100 / 0.4) 0.3 1 = 0.3 := by
    unfold clampQ
    rw [min_eq_right (by norm_num), max_eq_left (by norm_num)]
  rw [h1, h2]
  have h3 : max (0 : ℝ) (min 1 (|(0 : ℝ) - 0| / max 0 ((EPSILON : ℚ) : ℝ))) = 0 := by
    norm_num [EPSILON]
  have h4 : max (0 : ℝ) (min 1 (max ((0 : ℚ) : ℝ) ((0 : ℚ) : ℝ) / 0.5)) = 0 := by
    norm_num
  rw [h3, h4]
  have h5 : min (0.015 : ℚ) (((44 - 0 : ℤ) : ℚ) / 44100 * 0.2) =
      ((44 - 0 : ℤ) : ℚ) / 44100 * 0.2 := min_eq_right (by norm_num)
  have h6 : min (0.15 : ℚ) (((44 - 0 : ℤ) : ℚ) / 44100 * 0.45) =
      ((44 - 0 : ℤ) : ℚ) / 44100 * 0.45 := min_eq_right (by norm_num)
  rw [h5, h6]
  have h7 : max (0.01 : ℚ) (((44 - 0 : ℤ) : ℚ) / 44100 * 0.2) = 0.01 :=
    max_eq_left (by norm_num)
  have h8 : max (((44 - 0 : ℤ) : ℚ) / 44100 * 0.2) (((44 - 0 : ℤ) : ℚ) / 44100 * 0.45) =
      ((44 - 0 : ℤ) : ℚ) / 44100 * 0.45 := max_eq_right (by norm_num)
  rw [h7, h8]
  rw [min_eq_left (by push_cast; norm_num), max_eq_left (by push_cast; norm_num)]
  norm_num

/-- C9 (amended): `calculateRMS` clamps the window's upper end to the
buffer length, but the denominator of its division is NOT floored at 1:
the code divides by `min(startSample+windowSize, length) - startSample`,
which is zero — the JS `0/0 = NaN` case — exactly when the clamped window
is empty (for example whenever `startSample ≥ length`); a negative
`startSample` with a nonempty window reads `undefined` slots and also
yields `NaN`.  For `0 ≤ startSample < length` and a positive window the
denominator is at least 1 and the result is a real number.  (The
floor-at-1 guard described by the claim exists in
`averageAbsoluteDerivative`, not in `calculateRMS`; see
`calculateRMS_divides_by_zero`.) -/
theorem calculateRMS_guard_spec (d : ℤ → ℚ) (L s w : ℤ) :
    (calculateRMS d L s w = none ↔
      (min (s + w) L - s = 0 ∨ (0 < min (s + w) L - s ∧ s < 0))) ∧
    (0 ≤ s → s < L → 0 < w → ∃ x, calculateRMS d L s w = some x ∧ 0 ≤ x) := by
  refine ⟨calculateRMS_none_iff d L s w, fun hs hsL hw => ?_⟩
  exact calculateRMS_some_of d hs (by omega)

/-- C9 (witness). -/
theorem calculateRMS_guard_spec_witness :
    (calculateRMS (fun _ => 0) 44 0 2048 = none ↔
      (min ((0 : ℤ) + 2048) 44 - 0 = 0 ∨ (0 < min ((0 : ℤ) + 2048) 44 - 0 ∧ (0 : ℤ) < 0))) ∧
      ((0 : ℤ) ≤ 0 ∧ (0 : ℤ) < 44 ∧ (0 : ℤ) < 2048 ∧
        ∃ x, calculateRMS (fun _ => 0) 44 0 2048 = some x ∧ 0 ≤ x) :=
  ⟨(calculateRMS_guard_spec (fun _ => 0) 44 0 2048).1,
    le_refl _, by norm_num, by norm_num,
    (calculateRMS_guard_spec (fun _ => 0) 44 0 2048).2 (by norm_num) (by norm_num) (by norm_num)⟩

/-- C9 (counterexample): with `startSample = length` (here both 1) the
clamped window is empty and the code divides by
`min(startSample + windowSize, length) - startSample = 0`: the division is
`0/0` (JS `NaN`), not a division with the denominator floored at 1 as the
claim states. -/
theorem calculateRMS_divides_by_zero :
    min ((1 : ℤ) + 2048) 1 - 1 = 0 ∧ calculateRMS (fun _ => 0) 1 1 2048 = none := by
  refine ⟨by norm_num, ?_⟩
  unfold calculateRMS
  rw [if_pos (by norm_num)]

/-- JS number-to-integer truncation toward zero (the conversion applied by
`DataView.setInt16` / `setUint32` to a float argument). -/
def jsTrunc (q : ℚ) : ℤ := if 0 ≤ q then ⌊q⌋ else -⌊-q⌋

/-- `ToUint16` of an integer: reduce modulo 2¹⁶. -/
def toUint16 (z : ℤ) : ℕ := (z % 65536).toNat

/-- `ToUint32` of an integer: reduce modulo 2³². -/
def toUint32 (z : ℤ) : ℕ := (z % 4294967296).toNat

/-- The two little-endian bytes written by `DataView.setUint16 / setInt16`. -/
def bytesOfUint16 (n : ℕ) : List ℕ := [n % 256, n / 256 % 256]

/-- The four little-endian bytes written by `DataView.setUint32`. -/
def bytesOfUint32 (n : ℕ) : List ℕ :=
  [n % 256, n / 256 % 256, n / 65536 % 256, n / 16777216 % 256]

/-- `interleaveChannels(buffer)` from `exportAudio.ts`: for each frame `i`,
emit the sample of every channel in order (`result[i·channels + ch] =
channelData[ch][i]`). -/
def interleaveChannels (b : AudioBuffer) : List ℚ :=
  (List.range b.length).flatMap
    (fun i => (List.range b.numberOfChannels).map (fun ch => b.channelData ch (i : ℤ)))

/-- The per-sample quantization of `audioBufferToWav`:
`sample = Math.max(-1, Math.min(1, x))`, then
`sample < 0 ? sample * 0x8000 : sample * 0x7FFF`, truncated by `setInt16`. -/
def encodeInt16 (q : ℚ) : ℤ :=
  jsTrunc (if clampQ q (-1) 1 < 0 then clampQ q (-1) 1 * 32768 else clampQ q (-1) 1 * 32767)

/-- The 44-byte header written by `audioBufferToWav` in `exportAudio.ts`:
`RIFF`, chunk size `36 + dataLength`, `WAVE`, `fmt `, subchunk size 16,
format tag 1 (PCM), channel count, sample rate, byte rate
`sampleRate·blockAlign`, block align `channels·2`, bit depth 16, `data`,
data length; all multi-byte fields little-endian. -/
def wavHeader (b : AudioBuffer) : List ℕ :=
  [82, 73, 70, 70] ++
  bytesOfUint32 (36 + (interleaveChannels b).length * 2) ++
  [87, 65, 86, 69] ++
  [102, 109, 116, 32] ++
  bytesOfUint32 16 ++
  bytesOfUint16 1 ++
  bytesOfUint16 b.numberOfChannels ++
  bytesOfUint32 (toUint32 (jsTrunc b.sampleRate)) ++
  bytesOfUint32 (toUint32 (jsTrunc (b.sampleRate * ((b.numberOfChannels * 2 : ℕ) : ℚ)))) ++
  bytesOfUint16 (b.numberOfChannels * 2) ++
  bytesOfUint16 16 ++
  [100, 97, 116, 97] ++
  bytesOfUint32 ((interleaveChannels b).length * 2)

/-- The interleaved 16-bit little-endian payload written by
`audioBufferToWav` after the header. -/
def wavPayload (b : AudioBuffer) : List ℕ :=
  (interleaveChannels b).flatMap (fun q => bytesOfUint16 (toUint16 (encodeInt16 q)))

/-- `audioBufferToWav(buffer)` from `exportAudio.ts` as its byte sequence:
the 44-byte header followed by the interleaved clamped-and-scaled 16-bit
samples. -/
def audioBufferToWav (b : AudioBuffer) : List ℕ :=
  wavHeader b ++ wavPayload b

/-- Modelled from the spec: the "reference PCM16 reader" used to state the
round-trip property is not part of the sources.  It reads little-endian
16-bit words. -/
def readUint16 (bs : List ℕ) (o : ℕ) : ℕ :=
  bs.getD o 0 + 256 * bs.getD (o + 1) 0

/-- Modelled from the spec: little-endian 32-bit read of the reference
reader. -/
def readUint32 (bs : List ℕ) (o : ℕ) : ℕ :=
  bs.getD o 0 + 256 * bs.getD (o + 1) 0 + 65536 * bs.getD (o + 2) 0 +
    16777216 * bs.getD (o + 3) 0

/-- Modelled from the spec: the reference reader's channel-count header
field (offset 22). -/
def wavNumChannels (bs : List ℕ) : ℕ := readUint16 bs 22

/-- Modelled from the spec: the reference reader's sample-rate header field
(offset 24). -/
def wavSampleRate (bs : List ℕ) : ℕ := readUint32 bs 24

/-- Modelled from the spec: the reference reader's data-length header field
(offset 40). -/
def wavDataLength (bs : List ℕ) : ℕ := readUint32 bs 40

/-- Modelled from the spec: the reference PCM16 reader's `k`-th decoded
sample — the signed 16-bit little-endian word at byte offset `44 + 2k`,
scaled by `1/0x8000` (the standard PCM16 float convention). -/
def wavSample (bs : List ℕ) (k : ℕ) : ℚ :=
  (((if 32768 ≤ readUint16 bs (44 + 2 * k) then ((readUint16 bs (44 + 2 * k) : ℤ) - 65536)
    else (readUint16 bs (44 + 2 * k) : ℤ)) : ℤ) : ℚ) / 32768

theorem wavHeader_length (b : AudioBuffer) : (wavHeader b).length = 44 := by
  simp [wavHeader, bytesOfUint16, bytesOfUint32]

theorem interleaveChannels_length (b : AudioBuffer) :
    (interleaveChannels b).length = b.length * b.numberOfChannels := by
  simp only [interleaveChannels, List.length_flatMap, List.map_map]
  have h : (List.length ∘ fun i : ℕ =>
      List.map (fun ch => b.channelData ch (i : ℤ)) (List.range b.numberOfChannels)) =
      fun _ : ℕ => b.numberOfChannels := by
    funext i
    simp
  rw [h, List.map_const', List.sum_replicate, List.length_range, smul_eq_mul]

theorem getD_flatMap_blocks {α β : Type} (f : α → List β) (m : ℕ)
    (hm : ∀ x, (f x).length = m) (dα : α) (dβ : β) :
    ∀ (l : List α) (j k : ℕ), j < l.length → k < m →
      (l.flatMap f).getD (j * m + k) dβ = (f (l.getD j dα)).getD k dβ := by
  intro l
  induction l with
  | nil => intro j k hj _; exact absurd hj (by simp)
  | cons a t ih =>
    intro j k hj hk
    cases j with
    | zero =>
      simp only [List.flatMap_cons, Nat.zero_mul, Nat.zero_add, List.getD_cons_zero]
      rw [List.getD_append]
      rw [hm a]
      exact hk
    | succ j =>
      simp only [List.flatMap_cons, List.getD_cons_succ]
      rw [List.getD_append_right]
      · rw [hm a, show (j + 1) * m + k - m = j * m + k by ring_nf; omega]
        exact ih j k (by simpa using hj) hk
      · rw [hm a]
        nlinarith

theorem interleaveChannels_getD (b : AudioBuffer) {ch i : ℕ}
    (hch : ch < b.numberOfChannels) (hi : i < b.length) :
    (interleaveChannels b).getD (i * b.numberOfChannels + ch) 0 = b.channelData ch i := by
  unfold interleaveChannels
  rw [getD_flatMap_blocks
    (fun j : ℕ => (List.range b.numberOfChannels).map (fun ch => b.channelData ch (j : ℤ)))
    b.numberOfChannels (fun x => by simp) 0 0 (List.range b.length) i ch
    (by simpa using hi) hch]
  have hinner : (List.range b.length).getD i 0 = i := by
    rw [List.getD_eq_getElem?_getD, List.getElem?_range hi]
    rfl
  rw [hinner, List.getD_eq_getElem?_getD, List.getElem?_map, List.getElem?_range hch]
  rfl

theorem encodeInt16_bounds (q : ℚ) : -32768 ≤ encodeInt16 q ∧ encodeInt16 q ≤ 32767 := by
  have h1 : (-1 : ℚ) ≤ clampQ q (-1) 1 := le_max_left _ _
  have h2 : clampQ q (-1) 1 ≤ 1 := max_le (by norm_num) (min_le_left _ _)
  unfold encodeInt16 jsTrunc
  split_ifs with hneg hpos hpos2
  · exfalso
    nlinarith
  · have hub : ⌊-(clampQ q (-1) 1 * 32768)⌋ < 32769 := Int.floor_lt.mpr (by push_cast; nlinarith)
    have hlb : (0 : ℤ) ≤ ⌊-(clampQ q (-1) 1 * 32768)⌋ := Int.le_floor.mpr (by push_cast; nlinarith)
    omega
  · have h0 : (0 : ℚ) ≤ clampQ q (-1) 1 := not_lt.mp hneg
    have hlb : (0 : ℤ) ≤ ⌊clampQ q (-1) 1 * 32767⌋ := Int.le_floor.mpr (by push_cast; nlinarith)
    have hub : ⌊clampQ q (-1) 1 * 32767⌋ < 32768 := Int.floor_lt.mpr (by push_cast; nlinarith)
    omega
  · exfalso
    have h0 : (0 : ℚ) ≤ clampQ q (-1) 1 := not_lt.mp hneg
    exact hpos2 (by nlinarith)

theorem decodeInt16_toUint16 {z : ℤ} (h1 : -32768 ≤ z) (h2 : z ≤ 32767) :
    (if 32768 ≤ toUint16 z then ((toUint16 z : ℤ) - 65536) else (toUint16 z : ℤ)) = z := by
  unfold toUint16
  split_ifs with h <;> omega

theorem toUint16_lt (z : ℤ) : toUint16 z < 65536 := by
  unfold toUint16
  omega

theorem jsTrunc_natCast (n : ℕ) : jsTrunc (n : ℚ) = (n : ℤ) := by
  unfold jsTrunc
  rw [if_pos (by positivity)]
  exact_mod_cast Int.floor_natCast n

theorem encodeInt16_quant (q : ℚ) :
    |((encodeInt16 q : ℤ) : ℚ) / 32768 - clampQ q (-1) 1| ≤ 2 / 32768 := by
  have h1 : (-1 : ℚ) ≤ clampQ q (-1) 1 := le_max_left _ _
  have h2 : clampQ q (-1) 1 ≤ 1 := max_le (by norm_num) (min_le_left _ _)
  have key : |((encodeInt16 q : ℤ) : ℚ) - clampQ q (-1) 1 * 32768| ≤ 2 := by
    unfold encodeInt16 jsTrunc
    split_ifs with hneg hpos hpos2
    · exfalso
      nlinarith
    · have hfl := Int.floor_le (-(clampQ q (-1) 1 * 32768))
      have hfl2 := Int.lt_floor_add_one (-(clampQ q (-1) 1 * 32768))
      rw [abs_le]
      push_cast
      constructor <;> nlinarith
    · have h0 : (0 : ℚ) ≤ clampQ q (-1) 1 := not_lt.mp hneg
      have hfl := Int.floor_le (clampQ q (-1) 1 * 32767)
      have hfl2 := Int.lt_floor_add_one (clampQ q (-1) 1 * 32767)
      rw [abs_le]
      push_cast
      constructor <;> nlinarith
    · exfalso
      have h0 : (0 : ℚ) ≤ clampQ q (-1) 1 := not_lt.mp hneg
      exact hpos2 (by nlinarith)
  have heq : ((encodeInt16 q : ℤ) : ℚ) / 32768 - clampQ q (-1) 1 =
      (((encodeInt16 q : ℤ) : ℚ) - clampQ q (-1) 1 * 32768) / 32768 := by
    ring
  rw [heq, abs_div, abs_of_pos (show (0 : ℚ) < 32768 by norm_num)]
  exact (div_le_div_right (by norm_num)).mpr key

theorem audioBufferToWav_getD_payload (b : AudioBuffer) (j : ℕ) :
    (audioBufferToWav b).getD (44 + j) 0 = (wavPayload b).getD j 0 := by
  unfold audioBufferToWav
  rw [List.getD_append_right]
  · rw [wavHeader_length]
    congr 1
    omega
  · rw [wavHeader_length]
    omega

/-- C7 (amended): the encoder interleaves channels sample-by-sample, clamps
each sample to `[-1, 1]`, scales negatives by `0x8000` and non-negatives by
`0x7FFF` into signed 16-bit little-endian words after a 44-byte header with
format tag 1, the given channel count and sample rate, block-align
`channels·2` and bit depth 16; decoding the produced bytes with the
reference PCM16 reader reproduces the header fields exactly and every
sample to within `2/32768` of the clamped original.  (The originally
claimed error bound `1/32768` is refuted by
`audioBufferToWav_error_exceeds`: for non-negative samples the encoder
quantizes with step `1/32767` but the reader rescales by `1/32768`.) -/
theorem audioBufferToWav_spec (b : AudioBuffer) (n : ℕ) (ch i : ℕ)
    (hsr : b.sampleRate = (n : ℚ)) (hn : n < 4294967296)
    (hC : b.numberOfChannels < 65536)
    (hdl : b.length * b.numberOfChannels * 2 < 4294967296)
    (hch : ch < b.numberOfChannels) (hi : i < b.length) :
    wavNumChannels (audioBufferToWav b) = b.numberOfChannels ∧
      wavSampleRate (audioBufferToWav b) = n ∧
      wavDataLength (audioBufferToWav b) = b.length * b.numberOfChannels * 2 ∧
      |wavSample (audioBufferToWav b) (i * b.numberOfChannels + ch) -
          clampQ (b.channelData ch i) (-1) 1| ≤ 2 / 32768 := by
  refine ⟨?_, ?_, ?_, ?_⟩
  · have h22 : wavNumChannels (audioBufferToWav b) =
        b.numberOfChannels % 256 + 256 * (b.numberOfChannels / 256 % 256) := by
      simp [wavNumChannels, readUint16, audioBufferToWav, wavHeader, bytesOfUint16,
        bytesOfUint32, List.getD_append, List.getD]
    rw [h22]
    omega
  · have h24 : wavSampleRate (audioBufferToWav b) =
        toUint32 (jsTrunc b.sampleRate) % 256 +
          256 * (toUint32 (jsTrunc b.sampleRate) / 256 % 256) +
          65536 * (toUint32 (jsTrunc b.sampleRate) / 65536 % 256) +
          16777216 * (toUint32 (jsTrunc b.sampleRate) / 16777216 % 256) := by
      simp [wavSampleRate, readUint32, audioBufferToWav, wavHeader, bytesOfUint16,
        bytesOfUint32, List.getD_append, List.getD]
    rw [h24, hsr, jsTrunc_natCast]
    unfold toUint32
    omega
  · have h40 : wavDataLength (audioBufferToWav b) =
        (interleaveChannels b).length * 2 % 256 +
          256 * ((interleaveChannels b).length * 2 / 256 % 256) +
          65536 * ((interleaveChannels b).length * 2 / 65536 % 256) +
          16777216 * ((interleaveChannels b).length * 2 / 16777216 % 256) := by
      simp [wavDataLength, readUint32, audioBufferToWav, wavHeader, bytesOfUint16,
        bytesOfUint32, List.getD_append, List.getD]
    rw [h40, interleaveChannels_length]
    omega
  · have hk : i * b.numberOfChannels + ch < (interleaveChannels b).length := by
      rw [interleaveChannels_length]
      have h1 : i + 1 ≤ b.length := hi
      have h2 : (i + 1) * b.numberOfChannels ≤ b.length * b.numberOfChannels :=
        Nat.mul_le_mul_right _ h1
      nlinarith
    have hblock := getD_flatMap_blocks
      (fun q : ℚ => bytesOfUint16 (toUint16 (encodeInt16 q))) 2
      (fun x => rfl) 0 0 (interleaveChannels b)
    have hlo : (audioBufferToWav b).getD (44 + 2 * (i * b.numberOfChannels + ch)) 0 =
        toUint16 (encodeInt16 ((interleaveChannels b).getD (i * b.numberOfChannels + ch) 0)) % 256 := by
      rw [audioBufferToWav_getD_payload]
      rw [show 2 * (i * b.numberOfChannels + ch) = (i * b.numberOfChannels + ch) * 2 + 0 by ring]
      rw [wavPayload, hblock (i * b.numberOfChannels + ch) 0 hk (by norm_num)]
      rfl
    have hhi : (audioBufferToWav b).getD (44 + 2 * (i * b.numberOfChannels + ch) + 1) 0 =
        toUint16 (encodeInt16 ((interleaveChannels b).getD (i * b.numberOfChannels + ch) 0)) / 256 % 256 := by
      rw [show 44 + 2 * (i * b.numberOfChannels + ch) + 1 =
        44 + (2 * (i * b.numberOfChannels + ch) + 1) by ring]
      rw [audioBufferToWav_getD_payload]
      rw [show 2 * (i * b.numberOfChannels + ch) + 1 = (i * b.numberOfChannels + ch) * 2 + 1 by ring]
      rw [wavPayload, hblock (i * b.numberOfChannels + ch) 1 hk (by norm_num)]
      rfl
    have hread : readUint16 (audioBufferToWav b) (44 + 2 * (i * b.numberOfChannels + ch)) =
        toUint16 (encodeInt16 ((interleaveChannels b).getD (i * b.numberOfChannels + ch) 0)) := by
      unfold readUint16
      rw [hlo, hhi]
      have := toUint16_lt (encodeInt16 ((interleaveChannels b).getD (i * b.numberOfChannels + ch) 0))
      omega
    obtain ⟨hb1, hb2⟩ := encodeInt16_bounds
      ((interleaveChannels b).getD (i * b.numberOfChannels + ch) 0)
    unfold wavSample
    rw [hread, decodeInt16_toUint16 hb1 hb2]
    rw [interleaveChannels_getD b hch hi]
    exact encodeInt16_quant _

/-- A concrete one-channel, one-sample, 8 kHz buffer used to instantiate the
encoder round-trip theorem. -/
def wavBuf1 : AudioBuffer := ⟨1, 1, 8000, fun _ _ => 1/2⟩

/-- Witness for `audioBufferToWav_spec` on `wavBuf1`. -/
theorem audioBufferToWav_spec_witness :
    (wavBuf1.sampleRate = ((8000 : ℕ) : ℚ) ∧ (8000 : ℕ) < 4294967296 ∧
      wavBuf1.numberOfChannels < 65536 ∧
      wavBuf1.length * wavBuf1.numberOfChannels * 2 < 4294967296 ∧
      0 < wavBuf1.numberOfChannels ∧ 0 < wavBuf1.length) ∧
    (wavNumChannels (audioBufferToWav wavBuf1) = wavBuf1.numberOfChannels ∧
      wavSampleRate (audioBufferToWav wavBuf1) = 8000 ∧
      wavDataLength (audioBufferToWav wavBuf1) =
        wavBuf1.length * wavBuf1.numberOfChannels * 2 ∧
      |wavSample (audioBufferToWav wavBuf1) (0 * wavBuf1.numberOfChannels + 0) -
          clampQ (wavBuf1.channelData 0 ((0 : ℕ) : ℤ)) (-1) 1| ≤ 2 / 32768) :=
  ⟨⟨by norm_num [wavBuf1], by norm_num, by norm_num [wavBuf1], by norm_num [wavBuf1],
      by norm_num [wavBuf1], by norm_num [wavBuf1]⟩,
    audioBufferToWav_spec wavBuf1 8000 0 0 (by norm_num [wavBuf1]) (by norm_num)
      (by norm_num [wavBuf1]) (by norm_num [wavBuf1]) (by norm_num [wavBuf1])
      (by norm_num [wavBuf1])⟩

/-- A concrete buffer whose single sample `65533/65534` breaks the claimed
`1/32768` round-trip error bound: the encoder computes
`⌊(65533/65534)·32767⌋ = ⌊65533/2⌋ = 32766`, the reader decodes
`32766/32768 = 16383/16384`, and the error is `49150/1073725456 >
1/32768`. -/
def wavBuf2 : AudioBuffer := ⟨1, 1, 8000, fun _ _ => 65533/65534⟩

/-- C7 counterexample to the spec's original error bound: decoding the bytes
produced by `audioBufferToWav` does NOT always reproduce the clamped sample
to within `1/32768`; for non-negative samples the encoder quantizes with
step `1/32767` while the reference reader rescales by `1/32768`. -/
theorem audioBufferToWav_error_exceeds :
    1 / 32768 <
      |wavSample (audioBufferToWav wavBuf2) 0 -
        clampQ (wavBuf2.channelData 0 0) (-1) 1| := by
  have hclamp : clampQ ((65533 : ℚ)/65534) (-1) 1 = 65533/65534 := by
    unfold clampQ
    rw [min_eq_right (by norm_num), max_eq_right (by norm_num)]
  have hfl : ⌊(65533 : ℚ)/2⌋ = (32766 : ℤ) := by
    rw [Int.floor_eq_iff]
    constructor <;> norm_num
  have henc : encodeInt16 ((65533 : ℚ)/65534) = 32766 := by
    unfold encodeInt16
    rw [hclamp, if_neg (show ¬((65533 : ℚ)/65534 < 0) by norm_num)]
    unfold jsTrunc
    rw [if_pos (show (0 : ℚ) ≤ 65533/65534 * 32767 by norm_num)]
    rw [show (65533 : ℚ)/65534 * 32767 = 65533/2 by norm_num]
    exact hfl
  have hinter : interleaveChannels wavBuf2 = [(65533 : ℚ)/65534] := by
    simp [interleaveChannels, wavBuf2, show List.range 1 = [0] from rfl]
  have hpay : wavPayload wavBuf2 = [254, 127] := by
    unfold wavPayload
    rw [hinter]
    simp only [List.flatMap_cons, List.flatMap_nil, List.append_nil, henc]
    decide
  have h0 := audioBufferToWav_getD_payload wavBuf2 0
  have h1 := audioBufferToWav_getD_payload wavBuf2 1
  rw [hpay] at h0 h1
  norm_num at h0 h1
  have hread : readUint16 (audioBufferToWav wavBuf2) 44 = 32766 := by
    unfold readUint16
    norm_num [h0, h1]
  have hsamp : wavSample (audioBufferToWav wavBuf2) 0 = 16383/16384 := by
    unfold wavSample
    norm_num [hread]
  rw [hsamp, show wavBuf2.channelData 0 0 = (65533 : ℚ)/65534 from rfl, hclamp]
  rw [abs_of_nonpos (by norm_num)]
  norm_num

/-- The indices `a, a+1, …, a+n-1`: the index set of a JavaScript loop
`for (let i = 0; i < n; i++)` accessing offset `a + i`. -/
def idxRange (a : ℤ) (n : ℕ) : List ℤ := (List.range n).map (fun k : ℕ => a + (k : ℤ))

theorem mem_idxRange {a : ℤ} {n : ℕ} {j : ℤ} (h : j ∈ idxRange a n) :
    a ≤ j ∧ j < a + (n : ℤ) := by
  unfold idxRange at h
  simp only [List.mem_map, List.mem_range] at h
  obtain ⟨k, hk, rfl⟩ := h
  omega

/-- `fadeLength = Math.floor(loopPoints.crossfadeDuration * sampleRate)` in
`applyCrossfade` (`part_002`): `NaN` (`none`) when the crossfade duration
is `NaN`. -/
noncomputable def fadeFloor (cf : Option ℝ) (sr : ℚ) : Option ℤ :=
  (jsMul cf (some (sr : ℝ))).map Int.floor

/-- `stitchLength = Math.min(fadeLength, Math.floor(loopLength * 0.2))` in
`applyCrossfade`: `Math.min` propagates `NaN`. -/
noncomputable def stitchFloor (cf : Option ℝ) (sr : ℚ) (s e : ℤ) : Option ℤ :=
  (fadeFloor cf sr).map (fun z => min z ⌊((e - s : ℤ) : ℚ) * (1/5)⌋)

/-- Input indices read by the main copy loop of `applyCrossfade`
(`inputData[startSample + i]` for `i < loopLength`). -/
def copyReads (s e : ℤ) : List ℤ := idxRange s (e - s).toNat

/-- Input indices read by the stitch-in blend of `applyCrossfade`
(`inputData[Math.max(startSample, endSample - stitchLength + i)]` for
`i < stitchLength`); a `NaN` bound runs the loop zero times. -/
noncomputable def stitchInReads (cf : Option ℝ) (sr : ℚ) (s e : ℤ) : List ℤ :=
  match stitchFloor cf sr s e with
  | none => []
  | some z => (idxRange (e - z) z.toNat).map (fun t => max s t)

/-- Input indices read by the fade-in loop of `applyCrossfade`
(`inputData[endSample - fadeLength + i]` for `i < fadeLength`). -/
noncomputable def fadeInReads (cf : Option ℝ) (sr : ℚ) (e : ℤ) : List ℤ :=
  match fadeFloor cf sr with
  | none => []
  | some z => idxRange (e - z) z.toNat

/-- Input indices read by the fade-out loop of `applyCrossfade`
(`inputData[startSample + i]` for `i < fadeLength`). -/
noncomputable def fadeOutReads (cf : Option ℝ) (sr : ℚ) (s : ℤ) : List ℤ :=
  match fadeFloor cf sr with
  | none => []
  | some z => idxRange s z.toNat

/-- Input indices read by the stitch-out blend of `applyCrossfade`
(`inputData[startSample + i]` for `i < stitchLength`). -/
noncomputable def stitchOutReads (cf : Option ℝ) (sr : ℚ) (s e : ℤ) : List ℤ :=
  match stitchFloor cf sr s e with
  | none => []
  | some z => idxRange s z.toNat

/-- Every index at which `applyCrossfade` reads the input channel, in
program order. -/
noncomputable def inputReadTrace (cf : Option ℝ) (sr : ℚ) (s e : ℤ) : List ℤ :=
  copyReads s e ++ stitchInReads cf sr s e ++ fadeInReads cf sr e ++
    fadeOutReads cf sr s ++ stitchOutReads cf sr s e

/-- Indices read by `getSegmentMean(data, start, length)` on a buffer of
`n` samples: the loop from the clamped start `Math.max(0, Math.min(start,
n-1))` to the clamped end `Math.min(clampedStart + length, n)`. -/
def segmentMeanReads (n s len : ℤ) : List ℤ :=
  idxRange (clampZ s 0 (n - 1)) ((min (clampZ s 0 (n - 1) + len) n - clampZ s 0 (n - 1)).toNat)

/-- Indices read by `getAverageSlope(data, start, length)` on a buffer of
`n` samples: the pairs `idx`, `idx+1` for `i < window - 1` with
`window = Math.max(2, Math.min(length, n - start))`. -/
def averageSlopeReads (n s len : ℤ) : List ℤ :=
  (idxRange s (max 2 (min len (n - s)) - 1).toNat).flatMap (fun t => [t, t + 1])

/-- Indices touched by one smoothing pass of `smoothLoopSeam`: the initial
read of `data[tailStart]`, then for each `1 ≤ i < seamWindow - 1` the reads
of `idx`, `idx + 1` and the write of `idx`. -/
def seamPassAccesses (t w : ℤ) : List ℤ :=
  t :: (idxRange (t + 1) (w - 2).toNat).flatMap (fun u => [u, u + 1, u])

/-- Indices read or written by `smoothLoopSeam` on a buffer of `n` samples:
empty when `seamWindow = Math.min(2048, Math.floor(n * 0.1)) < 4`, else the
two segment-mean scans, the mean-offset write loop, the two slope windows,
the slope-offset write loop and the two smoothing passes. -/
def smoothSeamAccesses (n : ℤ) : List ℤ :=
  if min 2048 ⌊(n : ℚ) * (1/10)⌋ < 4 then []
  else
    segmentMeanReads n 0 (min 2048 ⌊(n : ℚ) * (1/10)⌋) ++
    segmentMeanReads n (n - min 2048 ⌊(n : ℚ) * (1/10)⌋) (min 2048 ⌊(n : ℚ) * (1/10)⌋) ++
    idxRange (n - min 2048 ⌊(n : ℚ) * (1/10)⌋) (min 2048 ⌊(n : ℚ) * (1/10)⌋).toNat ++
    averageSlopeReads n 0 (min 2048 ⌊(n : ℚ) * (1/10)⌋) ++
    averageSlopeReads n (n - min 2048 ⌊(n : ℚ) * (1/10)⌋) (min 2048 ⌊(n : ℚ) * (1/10)⌋) ++
    idxRange (n - min 2048 ⌊(n : ℚ) * (1/10)⌋) (min 2048 ⌊(n : ℚ) * (1/10)⌋).toNat ++
    seamPassAccesses (n - min 2048 ⌊(n : ℚ) * (1/10)⌋) (min 2048 ⌊(n : ℚ) * (1/10)⌋) ++
    seamPassAccesses (n - min 2048 ⌊(n : ℚ) * (1/10)⌋) (min 2048 ⌊(n : ℚ) * (1/10)⌋)

/-- Indices read and written by `removeDCOffsetInPlace` on a buffer of `n`
samples: the summation loop and the subtraction loop. -/
def dcOffsetAccesses (n : ℤ) : List ℤ := idxRange 0 n.toNat ++ idxRange 0 n.toNat

/-- Every index at which `applyCrossfade` reads or writes the output
channel (the copy, stitch and fade loops, the in-place DC removal and the
seam smoothing), in program order; the output buffer has
`loopLength = endSample - startSample` samples. -/
noncomputable def outputAccessTrace (cf : Option ℝ) (sr : ℚ) (s e : ℤ) : List ℤ :=
  idxRange 0 (e - s).toNat ++
  (match stitchFloor cf sr s e with | none => [] | some z => idxRange 0 z.toNat) ++
  (match fadeFloor cf sr with | none => [] | some z => idxRange 0 z.toNat) ++
  (match fadeFloor cf sr with | none => [] | some z => idxRange (e - s - z) z.toNat) ++
  (match stitchFloor cf sr s e with | none => [] | some z => idxRange (e - s - z) z.toNat) ++
  dcOffsetAccesses (e - s) ++
  smoothSeamAccesses (e - s)

theorem floorTenth_bounds (n : ℤ) :
    10 * ⌊(n : ℚ) * (1/10)⌋ ≤ n ∧ n < 10 * ⌊(n : ℚ) * (1/10)⌋ + 10 := by
  have h1 := Int.floor_le ((n : ℚ) * (1/10))
  have h2 := Int.lt_floor_add_one ((n : ℚ) * (1/10))
  constructor
  · exact_mod_cast (by linarith : (10 : ℚ) * (⌊(n : ℚ) * (1/10)⌋ : ℚ) ≤ (n : ℚ))
  · exact_mod_cast (by linarith : (n : ℚ) < 10 * (⌊(n : ℚ) * (1/10)⌋ : ℚ) + 10)

theorem floorFifth_bounds (n : ℤ) :
    5 * ⌊(n : ℚ) * (1/5)⌋ ≤ n ∧ n < 5 * ⌊(n : ℚ) * (1/5)⌋ + 5 := by
  have h1 := Int.floor_le ((n : ℚ) * (1/5))
  have h2 := Int.lt_floor_add_one ((n : ℚ) * (1/5))
  constructor
  · exact_mod_cast (by linarith : (5 : ℚ) * (⌊(n : ℚ) * (1/5)⌋ : ℚ) ≤ (n : ℚ))
  · exact_mod_cast (by linarith : (n : ℚ) < 5 * (⌊(n : ℚ) * (1/5)⌋ : ℚ) + 5)

theorem segmentMeanReads_bounds {n s len j : ℤ}
    (h : j ∈ segmentMeanReads n s len) : 0 ≤ j ∧ j < n := by
  unfold segmentMeanReads clampZ at h
  have := mem_idxRange h
  omega

theorem averageSlopeReads_bounds {n s len j : ℤ} (hs : 0 ≤ s)
    (h2 : 2 ≤ min len (n - s)) (h : j ∈ averageSlopeReads n s len) :
    0 ≤ j ∧ j < n := by
  unfold averageSlopeReads at h
  simp only [List.mem_flatMap] at h
  obtain ⟨t, ht, hj⟩ := h
  have hb := mem_idxRange ht
  simp only [List.mem_cons, List.not_mem_nil, or_false] at hj
  rcases hj with rfl | rfl <;> omega

theorem seamPassAccesses_bounds {n t w j : ℤ} (ht : 0 ≤ t) (hw : 1 ≤ w)
    (htw : t + w ≤ n) (h : j ∈ seamPassAccesses t w) : 0 ≤ j ∧ j < n := by
  unfold seamPassAccesses at h
  simp only [List.mem_cons, List.mem_flatMap] at h
  rcases h with rfl | ⟨u, hu, hj⟩
  · omega
  · have hb := mem_idxRange hu
    simp only [List.mem_cons, List.not_mem_nil, or_false] at hj
    rcases hj with rfl | rfl | rfl <;> omega

theorem smoothSeamAccesses_bounds {n j : ℤ} (h : j ∈ smoothSeamAccesses n) :
    0 ≤ j ∧ j < n := by
  unfold smoothSeamAccesses at h
  split_ifs at h with hsw
  · exact absurd h (List.not_mem_nil j)
  · push_neg at hsw
    obtain ⟨hfl, hfu⟩ := floorTenth_bounds n
    simp only [List.mem_append] at h
    rcases h with ((((((h | h) | h) | h) | h) | h) | h) | h
    · exact segmentMeanReads_bounds h
    · exact segmentMeanReads_bounds h
    · have := mem_idxRange h
      omega
    · exact averageSlopeReads_bounds (by omega) (by omega) h
    · exact averageSlopeReads_bounds (by omega) (by omega) h
    · have := mem_idxRange h
      omega
    · exact seamPassAccesses_bounds (by omega) (by omega) (by omega) h
    · exact seamPassAccesses_bounds (by omega) (by omega) (by omega) h

/-- C8 (amended): under `0 ≤ startSample < endSample ≤ inputLength` and
provided the floored fade length does not exceed the loop length, every
input-channel read of `applyCrossfade` hits `[0, inputLength)` and every
output-channel read or write hits `[0, loopLength)`; a zero fade length
runs both crossfade loops zero times (a no-op).  Without the fade-length
hypothesis the claim is false (`applyCrossfade_reads_out_of_range`), and
the stitch blend does run (in bounds) for `0 < stitchLength < 4`: only
`smoothLoopSeam` has the `< 4` early return. -/
theorem applyCrossfade_access_bounds (cf : Option ℝ) (sr : ℚ) (s e L : ℤ)
    (hs : 0 ≤ s) (hse : s < e) (heL : e ≤ L)
    (hf : ∀ z, fadeFloor cf sr = some z → z ≤ e - s) :
    (∀ j ∈ inputReadTrace cf sr s e, 0 ≤ j ∧ j < L) ∧
    (∀ j ∈ outputAccessTrace cf sr s e, 0 ≤ j ∧ j < e - s) ∧
    (fadeFloor cf sr = some 0 →
      fadeInReads cf sr e = [] ∧ fadeOutReads cf sr s = []) := by
  have hstitch : ∀ z, stitchFloor cf sr s e = some z →
      z ≤ ⌊((e - s : ℤ) : ℚ) * (1/5)⌋ ∧ z ≤ e - s := by
    intro z hz
    unfold stitchFloor at hz
    rcases Option.map_eq_some'.mp hz with ⟨z0, _, rfl⟩
    obtain ⟨h5, _⟩ := floorFifth_bounds (e - s)
    constructor
    · exact min_le_right _ _
    · have := min_le_right z0 ⌊((e - s : ℤ) : ℚ) * (1/5)⌋
      omega
  refine ⟨?_, ?_, ?_⟩
  · intro j hj
    unfold inputReadTrace at hj
    simp only [List.mem_append] at hj
    rcases hj with (((hj | hj) | hj) | hj) | hj
    · unfold copyReads at hj
      have := mem_idxRange hj
      omega
    · unfold stitchInReads at hj
      rcases hsf : stitchFloor cf sr s e with _ | z
      · rw [hsf] at hj
        exact absurd hj (List.not_mem_nil j)
      · rw [hsf] at hj
        simp only [List.mem_map] at hj
        obtain ⟨t, ht, rfl⟩ := hj
        have hb := mem_idxRange ht
        constructor
        · have : s ≤ max s t := le_max_left _ _
          omega
        · have hcase : max s t = s ∨ max s t = t := max_choice s t
        -- the loop body runs only when the iteration count is positive
          rcases hcase with hc | hc <;> omega
    · unfold fadeInReads at hj
      rcases hfz : fadeFloor cf sr with _ | z
      · rw [hfz] at hj
        exact absurd hj (List.not_mem_nil j)
      · rw [hfz] at hj
        have hb := mem_idxRange hj
        have hzle := hf z hfz
        omega
    · unfold fadeOutReads at hj
      rcases hfz : fadeFloor cf sr with _ | z
      · rw [hfz] at hj
        exact absurd hj (List.not_mem_nil j)
      · rw [hfz] at hj
        have hb := mem_idxRange hj
        have hzle := hf z hfz
        omega
    · unfold stitchOutReads at hj
      rcases hsf : stitchFloor cf sr s e with _ | z
      · rw [hsf] at hj
        exact absurd hj (List.not_mem_nil j)
      · rw [hsf] at hj
        have hb := mem_idxRange hj
        have hzle := (hstitch z hsf).2
        omega
  · intro j hj
    unfold outputAccessTrace at hj
    simp only [List.mem_append] at hj
    rcases hj with (((((hj | hj) | hj) | hj) | hj) | hj) | hj
    · have := mem_idxRange hj
      omega
    · rcases hsf : stitchFloor cf sr s e with _ | z
      · rw [hsf] at hj
        exact absurd hj (List.not_mem_nil j)
      · rw [hsf] at hj
        have hb := mem_idxRange hj
        have hzle := (hstitch z hsf).2
        omega
    · rcases hfz : fadeFloor cf sr with _ | z
      · rw [hfz] at hj
        exact absurd hj (List.not_mem_nil j)
      · rw [hfz] at hj
        have hb := mem_idxRange hj
        have hzle := hf z hfz
        omega
    · rcases hfz : fadeFloor cf sr with _ | z
      · rw [hfz] at hj
        exact absurd hj (List.not_mem_nil j)
      · rw [hfz] at hj
        have hb := mem_idxRange hj
        have hzle := hf z hfz
        omega
    · rcases hsf : stitchFloor cf sr s e with _ | z
      · rw [hsf] at hj
        exact absurd hj (List.not_mem_nil j)
      · rw [hsf] at hj
        have hb := mem_idxRange hj
        have hzle := (hstitch z hsf).2
        omega
    · unfold dcOffsetAccesses at hj
      simp only [List.mem_append] at hj
      rcases hj with hj | hj <;> · have := mem_idxRange hj; omega
    · exact smoothSeamAccesses_bounds hj
  · intro hfz
    unfold fadeInReads fadeOutReads
    rw [hfz]
    simp [idxRange]

/-- Witness for `applyCrossfade_access_bounds` with a zero crossfade on the
one-sample loop `[0, 1)` of a one-sample buffer. -/
theorem applyCrossfade_access_bounds_witness :
    ((0 : ℤ) ≤ 0 ∧ (0 : ℤ) < 1 ∧ (1 : ℤ) ≤ 1 ∧
      (∀ z : ℤ, fadeFloor (some 0) 1 = some z → z ≤ 1 - 0)) ∧
    ((∀ j ∈ inputReadTrace (some 0) 1 0 1, 0 ≤ j ∧ j < 1) ∧
      (∀ j ∈ outputAccessTrace (some 0) 1 0 1, 0 ≤ j ∧ j < 1 - 0) ∧
      (fadeFloor (some 0) 1 = some 0 →
        fadeInReads (some 0) 1 1 = [] ∧ fadeOutReads (some 0) 1 0 = [])) :=
  ⟨⟨le_refl 0, by norm_num, le_refl 1, fun z hz => by
      simp only [fadeFloor, jsMul_some, zero_mul, Option.map_some', Int.floor_zero,
        Option.some.injEq] at hz
      omega⟩,
    applyCrossfade_access_bounds (some 0) 1 0 1 1 (le_refl 0) (by norm_num) (le_refl 1)
      (fun z hz => by
        simp only [fadeFloor, jsMul_some, zero_mul, Option.map_some', Int.floor_zero,
          Option.some.injEq] at hz
        omega)⟩

/-- C8 counterexample: with valid loop points `0 ≤ 0 < 1 ≤ 1` but a
10-second crossfade at sample rate 1, `fadeLength = 10` exceeds the
1-sample loop and the fade-in loop reads `inputData[endSample - fadeLength]
= inputData[-9]`, an out-of-range input read (`undefined`, i.e. `NaN`). -/
theorem applyCrossfade_reads_out_of_range :
    (0 : ℤ) ≤ 0 ∧ (0 : ℤ) < 1 ∧ (1 : ℤ) ≤ 1 ∧
    (-9 : ℤ) ∈ inputReadTrace (some 10) 1 0 1 ∧ ¬((0 : ℤ) ≤ -9) := by
  have hfz : fadeFloor (some 10) 1 = some 10 := by
    unfold fadeFloor
    norm_num
  have hmem : (-9 : ℤ) ∈ fadeInReads (some 10) 1 1 := by
    unfold fadeInReads
    rw [hfz]
    show (-9 : ℤ) ∈ idxRange (1 - 10) (10 : ℤ).toNat
    unfold idxRange
    refine List.mem_map.mpr ⟨0, ?_, ?_⟩
    · decide
    · norm_num
  refine ⟨le_refl 0, by norm_num, le_refl 1, ?_, by norm_num⟩
  unfold inputReadTrace
  simp only [List.mem_append]
  exact Or.inl (Or.inl (Or.inr hmem))

/-- The array pair live during one `applyCrossfade` / `createExtendedLoop`
call: the input buffer channels (`audioBuffer.getChannelData(ch)`) and the
freshly allocated output buffer channels (`audioContext.createBuffer`). -/
structure WavState where
  inp : ℕ → ℤ → Option ℝ
  out : ℕ → ℤ → Option ℝ

/-- Reading `d[ch][i]` from a `Float32Array` of length `len`: an
out-of-range read yields `undefined` (`NaN`). -/
def readArr (d : ℕ → ℤ → Option ℝ) (len : ℤ) (ch : ℕ) (i : ℤ) : Option ℝ :=
  if 0 ≤ i ∧ i < len then d ch i else none

/-- Writing `v` to slot `i` of output channel `ch` (output length `len`):
an out-of-range write is silently dropped; only the output array changes. -/
def writeOut (len : ℤ) (st : WavState) (ch : ℕ) (i : ℤ) (v : Option ℝ) : WavState :=
  if 0 ≤ i ∧ i < len then
    { st with out := fun c j => if c = ch ∧ j = i then v else st.out c j }
  else st

/-- `getFadeInGain(progress, useHann)` from `part_002`. -/
noncomputable def getFadeInGain (p : ℝ) (h : Bool) : ℝ :=
  if h then Real.sqrt (1/2 - 1/2 * Real.cos (Real.pi * p))
  else Real.sin (p * Real.pi / 2)

/-- `getFadeOutGain(progress, useHann)` from `part_002`. -/
noncomputable def getFadeOutGain (p : ℝ) (h : Bool) : ℝ :=
  if h then Real.sqrt (1/2 + 1/2 * Real.cos (Real.pi * p))
  else Real.cos (p * Real.pi / 2)

-- `useHannFade = loopPoints.crossfadeDuration >= 0.075` in `applyCrossfade`;
-- the comparison is false when the duration is `NaN`.
open Classical in
noncomputable def useHannFade (cf : Option ℝ) : Bool :=
  match cf with
  | none => false
  | some x => if (3/40 : ℝ) ≤ x then true else false

/-- The main copy loop of `applyCrossfade` on channel `ch`:
`outputData[i] = inputData[startSample + i]` for `i < loopLength`. -/
def copyPass (Lin s e : ℤ) (ch : ℕ) (st : WavState) : WavState :=
  (idxRange 0 (e - s).toNat).foldl
    (fun st2 i => writeOut (e - s) st2 ch i (readArr st2.inp Lin ch (s + i))) st

/-- The stitch-in blend of `applyCrossfade` on channel `ch`: a `NaN`
`stitchLength` runs the loop zero times. -/
noncomputable def stitchInPass (cf : Option ℝ) (sr : ℚ) (Lin s e : ℤ) (ch : ℕ)
    (st : WavState) : WavState :=
  match stitchFloor cf sr s e with
  | none => st
  | some z =>
    (idxRange 0 z.toNat).foldl (fun st2 i =>
      writeOut (e - s) st2 ch i
        (jsAdd
          (jsMul (readArr st2.out (e - s) ch i)
            (some (1 - 35/100 * (1 - (i : ℝ) / max 1 ((z : ℝ) - 1)))))
          (jsMul (readArr st2.inp Lin ch (max s (e - z + i)))
            (some (35/100 * (1 - (i : ℝ) / max 1 ((z : ℝ) - 1))))))) st

/-- The fade-in loop of `applyCrossfade` on channel `ch`:
`outputData[i] = fadeInGain * outputData[i] + fadeOutGain *
inputData[endSample - fadeLength + i]`. -/
noncomputable def fadeInPass (cf : Option ℝ) (sr : ℚ) (Lin s e : ℤ) (ch : ℕ)
    (st : WavState) : WavState :=
  match fadeFloor cf sr with
  | none => st
  | some z =>
    (idxRange 0 z.toNat).foldl (fun st2 i =>
      writeOut (e - s) st2 ch i
        (jsAdd
          (jsMul (some (getFadeInGain ((i : ℝ) / max 1 ((z : ℝ) - 1)) (useHannFade cf)))
            (readArr st2.out (e - s) ch i))
          (jsMul (some (getFadeOutGain ((i : ℝ) / max 1 ((z : ℝ) - 1)) (useHannFade cf)))
            (readArr st2.inp Lin ch (e - z + i))))) st

/-- The fade-out loop of `applyCrossfade` on channel `ch`:
`outputData[loopLength - fadeLength + i] = fadeOutGain * current +
fadeInGain * inputData[startSample + i]`. -/
noncomputable def fadeOutPass (cf : Option ℝ) (sr : ℚ) (Lin s e : ℤ) (ch : ℕ)
    (st : WavState) : WavState :=
  match fadeFloor cf sr with
  | none => st
  | some z =>
    (idxRange 0 z.toNat).foldl (fun st2 i =>
      writeOut (e - s) st2 ch (e - s - z + i)
        (jsAdd
          (jsMul (some (getFadeOutGain ((i : ℝ) / max 1 ((z : ℝ) - 1)) (useHannFade cf)))
            (readArr st2.out (e - s) ch (e - s - z + i)))
          (jsMul (some (getFadeInGain ((i : ℝ) / max 1 ((z : ℝ) - 1)) (useHannFade cf)))
            (readArr st2.inp Lin ch (s + i))))) st

/-- The stitch-out blend of `applyCrossfade` on channel `ch`:
`outputData[loopLength - stitchLength + i]` blended with
`inputData[startSample + i]`. -/
noncomputable def stitchOutPass (cf : Option ℝ) (sr : ℚ) (Lin s e : ℤ) (ch : ℕ)
    (st : WavState) : WavState :=
  match stitchFloor cf sr s e with
  | none => st
  | some z =>
    (idxRange 0 z.toNat).foldl (fun st2 i =>
      writeOut (e - s) st2 ch (e - s - z + i)
        (jsAdd
          (jsMul (readArr st2.out (e - s) ch (e - s - z + i))
            (some (1 - 35/100 * ((i : ℝ) / max 1 ((z : ℝ) - 1)))))
          (jsMul (readArr st2.inp Lin ch (s + i))
            (some (35/100 * ((i : ℝ) / max 1 ((z : ℝ) - 1))))))) st

-- `removeDCOffsetInPlace(outputData)` on channel `ch` of an `n`-sample
-- output: sum, `mean = sum / Math.max(1, length)`, early return when
-- `|mean| < EPSILON` (false for a `NaN` mean, which then poisons every
-- sample through the subtraction loop).
open Classical in
noncomputable def dcRemovePass (n : ℤ) (ch : ℕ) (st : WavState) : WavState :=
  if (match jsDiv ((idxRange 0 n.toNat).foldl
        (fun acc i => jsAdd acc (readArr st.out n ch i)) (some 0))
        (some (max 1 (n : ℝ))) with
      | some m => |m| < (1/1000000 : ℝ)
      | none => False) then st
  else
    (idxRange 0 n.toNat).foldl (fun st2 i =>
      writeOut n st2 ch i
        (jsSub (readArr st2.out n ch i)
          (jsDiv ((idxRange 0 n.toNat).foldl
            (fun acc k => jsAdd acc (readArr st.out n ch k)) (some 0))
            (some (max 1 (n : ℝ)))))) st

/-- `getSegmentMean(data, start, length)` over output channel `ch` of an
`n`-sample output: sum over the clamped window divided by
`Math.max(1, clampedEnd - clampedStart)`. -/
noncomputable def segMean (n : ℤ) (ch : ℕ) (st : WavState) (s len : ℤ) : Option ℝ :=
  jsDiv ((idxRange (clampZ s 0 (n - 1))
      ((min (clampZ s 0 (n - 1) + len) n - clampZ s 0 (n - 1)).toNat)).foldl
    (fun acc i => jsAdd acc (readArr st.out n ch i)) (some 0))
    (some (max 1 ((min (clampZ s 0 (n - 1) + len) n - clampZ s 0 (n - 1) : ℤ) : ℝ)))

/-- `getAverageSlope(data, start, length)` over output channel `ch`: the sum
of `data[idx+1] - data[idx]` over the window, divided by
`Math.max(1, window - 1)`. -/
noncomputable def avgSlope (n : ℤ) (ch : ℕ) (st : WavState) (s len : ℤ) : Option ℝ :=
  jsDiv ((idxRange s (max 2 (min len (n - s)) - 1).toNat).foldl
    (fun acc t => jsAdd acc (jsSub (readArr st.out n ch (t + 1)) (readArr st.out n ch t)))
    (some 0))
    (some (max 1 ((max 2 (min len (n - s)) - 1 : ℤ) : ℝ)))

/-- The mean-offset ramp of `smoothLoopSeam`:
`data[tailStart + i] -= (endMean - startMean) * (i+1)/seamWindow`, with both
segment means taken from the pre-loop state. -/
noncomputable def meanRampPass (n t w : ℤ) (ch : ℕ) (st : WavState) : WavState :=
  (idxRange t w.toNat).foldl (fun st2 i =>
    writeOut n st2 ch i
      (jsSub (readArr st2.out n ch i)
        (jsMul (jsSub (segMean n ch st t w) (segMean n ch st 0 w))
          (some (((i - t + 1 : ℤ) : ℝ) / (w : ℝ)))))) st

/-- The slope-offset ramp of `smoothLoopSeam`:
`data[tailStart + i] -= (endSlope - startSlope) * progress * seamWindow *
0.5`, with both slopes taken from the pre-loop state. -/
noncomputable def slopeRampPass (n t w : ℤ) (ch : ℕ) (st : WavState) : WavState :=
  (idxRange t w.toNat).foldl (fun st2 i =>
    writeOut n st2 ch i
      (jsSub (readArr st2.out n ch i)
        (jsMul (jsSub (avgSlope n ch st t w) (avgSlope n ch st 0 w))
          (some (((i - t + 1 : ℤ) : ℝ) / (w : ℝ) * (w : ℝ) * (1/2)))))) st

/-- One neighbor-averaging pass of `smoothLoopSeam`
(`data[idx] = current * 0.5 + (previous + next) * 0.25`), threading
`previous` through the fold. -/
noncomputable def seamSmoothPass (n t w : ℤ) (ch : ℕ) (st : WavState) : WavState :=
  ((idxRange (t + 1) (w - 2).toNat).foldl (fun (p : WavState × Option ℝ) u =>
    (writeOut n p.1 ch u
      (jsAdd (jsMul (readArr p.1.out n ch u) (some (1/2)))
        (jsMul (jsAdd p.2 (readArr p.1.out n ch (u + 1))) (some (1/4)))),
      readArr p.1.out n ch u))
    (st, readArr st.out n ch t)).1

/-- `smoothLoopSeam(outputData)` on channel `ch` of an `n`-sample output:
no-op when the seam window is `< 4`, else the mean-offset ramp, the
slope-offset ramp and two smoothing passes over the tail window. -/
noncomputable def smoothSeamPass (n : ℤ) (ch : ℕ) (st : WavState) : WavState :=
  if min 2048 ⌊(n : ℚ) * (1/10)⌋ < 4 then st
  else
    seamSmoothPass n (n - min 2048 ⌊(n : ℚ) * (1/10)⌋) (min 2048 ⌊(n : ℚ) * (1/10)⌋) ch
      (seamSmoothPass n (n - min 2048 ⌊(n : ℚ) * (1/10)⌋) (min 2048 ⌊(n : ℚ) * (1/10)⌋) ch
        (slopeRampPass n (n - min 2048 ⌊(n : ℚ) * (1/10)⌋) (min 2048 ⌊(n : ℚ) * (1/10)⌋) ch
          (meanRampPass n (n - min 2048 ⌊(n : ℚ) * (1/10)⌋) (min 2048 ⌊(n : ℚ) * (1/10)⌋)
            ch st)))

/-- One channel iteration of `applyCrossfade`: copy, stitch-in, fade-in,
fade-out, stitch-out, in-place DC removal, seam smoothing. -/
noncomputable def applyCrossfadeChannel (cf : Option ℝ) (sr : ℚ) (Lin s e : ℤ) (ch : ℕ)
    (st : WavState) : WavState :=
  smoothSeamPass (e - s) ch
    (dcRemovePass (e - s) ch
      (stitchOutPass cf sr Lin s e ch
        (fadeOutPass cf sr Lin s e ch
          (fadeInPass cf sr Lin s e ch
            (stitchInPass cf sr Lin s e ch
              (copyPass Lin s e ch st))))))

/-- `applyCrossfade` over all `numberOfChannels` channels. -/
noncomputable def applyCrossfadeRun (cf : Option ℝ) (sr : ℚ) (Lin s e : ℤ) (C : ℕ)
    (st : WavState) : WavState :=
  (List.range C).foldl (fun st1 ch => applyCrossfadeChannel cf sr Lin s e ch st1) st

/-- `createExtendedLoop(loopBuffer, targetDuration)`: the output buffer
holds `Math.floor(targetDuration * sampleRate)` samples and
`outputData[i] = loopData[i % loopLength]`; a zero `loopLength` makes
`i % 0` `NaN` and the read `undefined`.  A `NaN` sample count is modelled
as running no copy loop. -/
noncomputable def createExtendedLoopRun (td : Option ℝ) (sr : ℚ) (Lin : ℤ) (C : ℕ)
    (st : WavState) : WavState :=
  match (jsMul td (some (sr : ℝ))).map Int.floor with
  | none => st
  | some n =>
    (List.range C).foldl (fun st1 ch =>
      (idxRange 0 n.toNat).foldl (fun st2 i =>
        writeOut n st2 ch i
          (if Lin = 0 then none else readArr st2.inp Lin ch (i % Lin))) st1) st

theorem writeOut_inp (len : ℤ) (st : WavState) (ch : ℕ) (i : ℤ) (v : Option ℝ) :
    (writeOut len st ch i v).inp = st.inp := by
  unfold writeOut
  split_ifs <;> rfl

theorem foldl_inp_preserved {σ ι : Type} (g : σ → ℕ → ℤ → Option ℝ)
    (f : σ → ι → σ) (hf : ∀ st x, g (f st x) = g st) (l : List ι) (st : σ) :
    g (l.foldl f st) = g st := by
  induction l generalizing st with
  | nil => rfl
  | cons a t ih => rw [List.foldl_cons, ih, hf]

theorem copyPass_inp (Lin s e : ℤ) (ch : ℕ) (st : WavState) :
    (copyPass Lin s e ch st).inp = st.inp := by
  unfold copyPass
  exact foldl_inp_preserved WavState.inp _ (fun st2 i => writeOut_inp _ _ _ _ _) _ st

theorem stitchInPass_inp (cf : Option ℝ) (sr : ℚ) (Lin s e : ℤ) (ch : ℕ) (st : WavState) :
    (stitchInPass cf sr Lin s e ch st).inp = st.inp := by
  unfold stitchInPass
  cases stitchFloor cf sr s e with
  | none => rfl
  | some z =>
    exact foldl_inp_preserved WavState.inp _ (fun st2 i => writeOut_inp _ _ _ _ _) _ st

theorem fadeInPass_inp (cf : Option ℝ) (sr : ℚ) (Lin s e : ℤ) (ch : ℕ) (st : WavState) :
    (fadeInPass cf sr Lin s e ch st).inp = st.inp := by
  unfold fadeInPass
  cases fadeFloor cf sr with
  | none => rfl
  | some z =>
    exact foldl_inp_preserved WavState.inp _ (fun st2 i => writeOut_inp _ _ _ _ _) _ st

theorem fadeOutPass_inp (cf : Option ℝ) (sr : ℚ) (Lin s e : ℤ) (ch : ℕ) (st : WavState) :
    (fadeOutPass cf sr Lin s e ch st).inp = st.inp := by
  unfold fadeOutPass
  cases fadeFloor cf sr with
  | none => rfl
  | some z =>
    exact foldl_inp_preserved WavState.inp _ (fun st2 i => writeOut_inp _ _ _ _ _) _ st

theorem stitchOutPass_inp (cf : Option ℝ) (sr : ℚ) (Lin s e : ℤ) (ch : ℕ) (st : WavState) :
    (stitchOutPass cf sr Lin s e ch st).inp = st.inp := by
  unfold stitchOutPass
  cases stitchFloor cf sr s e with
  | none => rfl
  | some z =>
    exact foldl_inp_preserved WavState.inp _ (fun st2 i => writeOut_inp _ _ _ _ _) _ st

theorem dcRemovePass_inp (n : ℤ) (ch : ℕ) (st : WavState) :
    (dcRemovePass n ch st).inp = st.inp := by
  unfold dcRemovePass
  split_ifs
  · rfl
  · exact foldl_inp_preserved WavState.inp _ (fun st2 i => writeOut_inp _ _ _ _ _) _ st

theorem meanRampPass_inp (n t w : ℤ) (ch : ℕ) (st : WavState) :
    (meanRampPass n t w ch st).inp = st.inp := by
  unfold meanRampPass
  exact foldl_inp_preserved WavState.inp _ (fun st2 i => writeOut_inp _ _ _ _ _) _ st

theorem slopeRampPass_inp (n t w : ℤ) (ch : ℕ) (st : WavState) :
    (slopeRampPass n t w ch st).inp = st.inp := by
  unfold slopeRampPass
  exact foldl_inp_preserved WavState.inp _ (fun st2 i => writeOut_inp _ _ _ _ _) _ st

theorem seamSmoothPass_inp (n t w : ℤ) (ch : ℕ) (st : WavState) :
    (seamSmoothPass n t w ch st).inp = st.inp := by
  unfold seamSmoothPass
  exact foldl_inp_preserved (fun p : WavState × Option ℝ => p.1.inp) _
    (fun p u => writeOut_inp _ _ _ _ _) _ (st, readArr st.out n ch t)

theorem smoothSeamPass_inp (n : ℤ) (ch : ℕ) (st : WavState) :
    (smoothSeamPass n ch st).inp = st.inp := by
  unfold smoothSeamPass
  split_ifs
  · rfl
  · rw [seamSmoothPass_inp, seamSmoothPass_inp, slopeRampPass_inp, meanRampPass_inp]

theorem applyCrossfadeChannel_inp (cf : Option ℝ) (sr : ℚ) (Lin s e : ℤ) (ch : ℕ)
    (st : WavState) : (applyCrossfadeChannel cf sr Lin s e ch st).inp = st.inp := by
  unfold applyCrossfadeChannel
  rw [smoothSeamPass_inp, dcRemovePass_inp, stitchOutPass_inp, fadeOutPass_inp,
    fadeInPass_inp, stitchInPass_inp, copyPass_inp]

/-- C10: neither `applyCrossfade` nor `createExtendedLoop` modifies its
input buffer — after either call every sample of every channel of the
input equals its value before the call; all writes (the copy, stitch and
fade loops, the in-place DC removal, the seam smoothing and the tiling
loop) target only the newly allocated output buffer. -/
theorem applyCrossfade_preserves_input (cf td : Option ℝ) (sr : ℚ) (Lin s e : ℤ)
    (C : ℕ) (st : WavState) (ch : ℕ) (i : ℤ) :
    (applyCrossfadeRun cf sr Lin s e C st).inp ch i = st.inp ch i ∧
    (createExtendedLoopRun td sr Lin C st).inp ch i = st.inp ch i := by
  constructor
  · have h : (applyCrossfadeRun cf sr Lin s e C st).inp = st.inp := by
      unfold applyCrossfadeRun
      exact foldl_inp_preserved WavState.inp _
        (fun st1 c => applyCrossfadeChannel_inp cf sr Lin s e c st1) _ st
    rw [h]
  · have h : (createExtendedLoopRun td sr Lin C st).inp = st.inp := by
      unfold createExtendedLoopRun
      cases (jsMul td (some (sr : ℝ))).map Int.floor with
      | none => rfl
      | some n =>
        exact foldl_inp_preserved WavState.inp _
          (fun st1 c =>
            foldl_inp_preserved WavState.inp _
              (fun st2 k => writeOut_inp _ _ _ _ _) _ st1) _ st
    rw [h]

end AudioLooper
